import Mathlib

/-!
Verification of the `multipart-async` server-side streaming parser.

This file gives a shallow embedding, in Lean 4, of the parts of the
repository that the claims concern:

* `src/server/boundary.rs` — the `BoundaryFinder` boundary scanner
  (`body_chunk`, `check_chunk`, `find_boundary`, `partial_rmatch`,
  `check_crlf`, `consume_boundary`, `confirm_boundary`,
  `confirm_boundary_split`, `check_last_two`);
* `src/server/field/headers.rs` — the header accumulator
  (`ReadHeaders::read_headers`, `header_end_split`, `parse_headers`,
  with a model of the external `httparse` crate);
* `src/server/field/mod.rs` — `ReadToString::poll` and `utf8_char_width`,
  together with a model of Rust's `str::from_utf8` (the standard
  library's UTF-8 validator).

Bytes are modelled as `Nat` (values < 256 in every concrete input); byte
strings as `List Nat`.  The asynchronous chunk stream is modelled as a
finite list of events, where an event is either a data chunk
(`Poll::Ready(Some(Ok(chunk)))`) or `Poll::Pending`; an exhausted event
list models `Poll::Ready(None)` (end of stream).  Rust `panic!` sites
(slice indexing out of range, `unreachable!`, usize underflow) are
modelled by explicit `panic` result constructors guarded by the exact
conditions under which Rust would panic.  `debug_assert!` calls are
omitted (release-mode semantics).  Errors in the crate are formatted
strings; they are modelled by an inductive carrying the interpolated
data.
-/

set_option maxRecDepth 100000

namespace MultipartAsync

/-- Carriage return byte. -/
def CR : Nat := 13

/-- Line feed byte. -/
def LF : Nat := 10

/-- The two-byte sequence `\r\n`. -/
def CRLF : List Nat := [13, 10]

/-- The byte of the character `-`. -/
def DASH : Nat := 45

/-- One event of the wrapped `TryStream`:  a successfully produced chunk, or
`Poll::Pending`.  End of stream (`Poll::Ready(None)`) is modelled by the
event list running out. -/
inductive Event where
  | chunk (c : List Nat)
  | pending
deriving Repr, DecidableEq

/-- `struct SearchResult { idx: usize, incl_crlf: bool }` from
`src/server/boundary.rs`. -/
structure SearchResult where
  idx : Nat
  incl_crlf : Bool
deriving Repr, DecidableEq

/-- `SearchResult::boundary_start` from `src/server/boundary.rs`. -/
def SearchResult.boundaryStart (r : SearchResult) : Nat :=
  if r.incl_crlf then r.idx + 2 else r.idx

/-- `enum State<B>` from `src/server/boundary.rs`. -/
inductive State where
  | Watching
  | Partial (c : List Nat) (r : SearchResult)
  | Boundary (c : List Nat)
  | BoundarySplit (a b : List Nat)
  | Remainder (c : List Nat)
  | End
deriving Repr, DecidableEq

/-- The data interpolated into the crate's formatted error strings.  Each
constructor corresponds to one `ready_err!`/`error`/`format!` site in
`src/server/boundary.rs`. -/
inductive BErr where
  /-- "unable to verify multipart boundary; expected: .. found: .." -/
  | malformedBoundary (expected found : List Nat)
  /-- "needed .. more bytes to verify boundary, got .." -/
  | needMoreBytes (needed got : Nat)
  /-- "boundary sequence too short: .." -/
  | boundaryTooShort (bnd : List Nat)
  /-- "split boundary sequence too short: (.., ..)" -/
  | splitBoundaryTooShort (a b : List Nat)
deriving Repr, DecidableEq

/-- Result of one `body_chunk` poll:  `yield c` is
`Poll::Ready(Some(Ok(c)))`, `fieldEnd` is `Poll::Ready(None)`, `pending`
is `Poll::Pending`, `err` is `Poll::Ready(Some(Err(..)))`, and `panic`
marks a Rust panic (slice index out of range). -/
inductive BCOut where
  | yield (c : List Nat)
  | fieldEnd
  | pending
  | err (e : BErr)
  | panic
deriving Repr, DecidableEq

/-- Result of one `consume_boundary` poll:  `ok b` is
`Poll::Ready(Ok(b))`, plus pending / error / panic, and `fuelOut` for
exhaustion of the explicit recursion fuel (never reached with fuel larger
than the event count). -/
inductive CBOut where
  | ok (b : Bool)
  | pending
  | err (e : BErr)
  | panic
  | fuelOut
deriving Repr, DecidableEq

/-- `twoway::find_bytes(haystack, needle)` — index of the leftmost
occurrence of `needle` as a contiguous subsequence of `haystack`. -/
def findBytes (haystack needle : List Nat) : Option Nat :=
  if needle.isPrefixOf haystack then some 0
  else
    match haystack with
    | [] => none
    | _ :: t => (findBytes t needle).map (· + 1)

/-- `check_crlf(chunk, idx)` from `src/server/boundary.rs`:  if the two
bytes before `idx` are `\r\n`, back up over them and record `incl_crlf`. -/
def checkCrlf (chunk : List Nat) (idx : Nat) : SearchResult :=
  if 2 ≤ idx ∧ (chunk.drop (idx - 2)).take 2 = CRLF then
    { idx := idx - 2, incl_crlf := true }
  else
    { idx := idx, incl_crlf := false }

/-- `partial_rmatch(haystack, needle)` from `src/server/boundary.rs`:
check whether a prefix of `needle` is cut off at the end of `haystack`.
Note the Rust code finds only the first occurrence of `needle[..1]` in
the trimmed tail and does not backtrack. -/
def partialRmatch (haystack needle : List Nat) : Option Nat :=
  if haystack = [] ∨ needle = [] then none
  else
    let trimStart := haystack.length - (needle.length - 1)
    match findBytes (haystack.drop trimStart) (needle.take 1) with
    | none => none
    | some i =>
      let idx := i + trimStart
      -- haystack[idx..].iter().zip(needle).all(|(l, r)| l == r)
      if ((haystack.drop idx).zip needle).all (fun p => p.1 = p.2) then
        some idx
      else
        none

/-- `BoundaryFinder::partial_find_boundary` from `src/server/boundary.rs`
(`B` is the stored boundary). -/
def partialFindBoundary (B chunk : List Nat) : Option SearchResult :=
  let len := chunk.length
  match partialRmatch chunk B with
  | some idx => some (checkCrlf chunk idx)
  | none =>
    if 2 ≤ len ∧ chunk.drop (len - 2) = CRLF then
      some { idx := len - 2, incl_crlf := true }
    else if 1 ≤ len ∧ chunk.drop (len - 1) = [CR] then
      some { idx := len - 1, incl_crlf := true }
    else
      none

/-- `BoundaryFinder::find_boundary` from `src/server/boundary.rs`. -/
def findBoundary (B chunk : List Nat) : Option SearchResult :=
  match findBytes chunk B with
  | some idx => some (checkCrlf chunk idx)
  | none => partialFindBoundary B chunk

/-- `BoundaryFinder::boundary_size` from `src/server/boundary.rs`:  the
boundary plus the potential CRLF before and the two bytes after. -/
def boundarySize (B : List Nat) (inclCrlf : Bool) : Nat :=
  B.length + (if inclCrlf then 4 else 2)

/-- `BoundaryFinder::is_boundary_prefix(first, second, res)` from
`src/server/boundary.rs`.  Note the Rust code chains the WHOLE of `first`
(not `first[res.boundary_start()..]`) against (`\r\n` ++) the boundary;
`zip` truncates to the shorter side. -/
def isBoundaryPrefix (B first second : List Nat) (r : SearchResult) : Bool :=
  if r.incl_crlf then
    ((first ++ second).zip (CRLF ++ B)).all (fun p => p.1 = p.2)
  else
    ((first ++ second).zip B).all (fun p => p.1 = p.2)

/-- `BoundaryFinder::check_boundary_split(first, second)` from
`src/server/boundary.rs`. -/
def checkBoundarySplit (B first second : List Nat) : Bool :=
  let checkLen := B.length - first.length
  checkLen ≤ second.length ∧ first ++ second.take checkLen = B

/-- Outcome of `BoundaryFinder::check_chunk`:  the returned
`Option<chunk>` together with the state effect.  `empty` is the
`chunk.is_empty()` early return (returns `None`, leaves `Watching`);
`noBoundary` returns the whole chunk (state stays `Watching`);
`partialB res` stores `Partial(chunk, res)` and returns `None`;
`boundary ret bnd` stores `Boundary(bnd)` and returns `ret` (`none` when
the prefix before the boundary is empty). -/
inductive ChunkScan where
  | empty
  | noBoundary
  | partialB (r : SearchResult)
  | boundary (ret : Option (List Nat)) (bnd : List Nat)
deriving Repr, DecidableEq

/-- `BoundaryFinder::check_chunk` from `src/server/boundary.rs`. -/
def checkChunk (B chunk : List Nat) : ChunkScan :=
  if chunk = [] then .empty
  else
    match findBoundary B chunk with
    | none => .noBoundary
    | some res =>
      let len := boundarySize B res.incl_crlf
      if chunk.length < res.idx + len then
        .partialB res
      else
        let ret := chunk.take res.idx
        let bnd0 := chunk.drop res.idx
        let bnd := if res.incl_crlf then bnd0.drop 2 else bnd0
        .boundary (if ret = [] then none else some ret) bnd

/-- The Partial-state branch of `BoundaryFinder::body_chunk` once the next
chunk `c` has been obtained from the stream (lines 130–172 of
`src/server/boundary.rs`).  Returns the poll result and the new state.
The state on the `needed_len` error path is `Watching` because
`mem::replace` already cleared it and the early return does not restore
it.  The slice `partial.as_slice()[res.boundary_start()..]` panics when
`boundary_start` exceeds the held chunk's length. -/
def partialNext (B p : List Nat) (r : SearchResult) (c : List Nat) :
    BCOut × State :=
  if ¬ isBoundaryPrefix B p c r then
    (.yield p, .Remainder c)
  else
    let needed := boundarySize B r.incl_crlf - p.length
    if c.length < needed then
      (.err (.needMoreBytes needed c.length), .Watching)
    else if p.length < r.boundaryStart then
      (.panic, .Watching)
    else if checkBoundarySplit B (p.drop r.boundaryStart) c then
      let ret0 := p.take r.boundaryStart
      let first := p.drop r.boundaryStart
      let ret := if 2 ≤ ret0.length ∧ r.incl_crlf then
          ret0.take (ret0.length - 2)
        else ret0
      if ret = [] then
        (.fieldEnd, .BoundarySplit first c)
      else
        (.yield ret, .BoundarySplit first c)
    else
      (.yield p, .Remainder c)

/-- `BoundaryFinder::body_chunk` from `src/server/boundary.rs`, as a
function from the current state and remaining stream events to the poll
result, the state after the call, and the remaining events.  The Rust
`loop` re-dispatching on the state after `check_chunk` returned `None`
is unfolded in place (the `Remainder`/empty paths re-enter the
`Watching` logic on the same event list; the `Partial` paths poll the
next event). -/
def bodyChunk (B : List Nat) : State → List Event → BCOut × State × List Event
  | .Boundary b, es => (.fieldEnd, .Boundary b, es)
  | .BoundarySplit a b, es => (.fieldEnd, .BoundarySplit a b, es)
  | .End, es => (.fieldEnd, .End, es)
  | .Partial p _, [] =>
    (.err (.malformedBoundary B p), .End, [])
  | .Partial p r, .pending :: es => (.pending, .Partial p r, es)
  | .Partial p r, .chunk c :: es =>
    ((partialNext B p r c).1, (partialNext B p r c).2, es)
  | .Watching, [] => (.fieldEnd, .End, [])
  | .Watching, .pending :: es => (.pending, .Watching, es)
  | .Watching, .chunk c :: es =>
    if c = [] then (.yield c, .Watching, es)  -- the "For sanity" early return
    else
      match checkChunk B c with
      | .noBoundary => (.yield c, .Watching, es)
      | .boundary (some ret) bnd => (.yield ret, .Boundary bnd, es)
      | .boundary none bnd => (.fieldEnd, .Boundary bnd, es)
      | .partialB res =>
        -- loop: state is now Partial(c, res); poll the next event
        (match es with
         | [] => (.err (.malformedBoundary B c), .End, [])
         | .pending :: t => (.pending, .Partial c res, t)
         | .chunk c2 :: t =>
           ((partialNext B c res c2).1, (partialNext B c res c2).2, t))
      | .empty => bodyChunk B .Watching es  -- unreachable: c ≠ []
  | .Remainder rem, es =>
    match checkChunk B rem with
    | .noBoundary => (.yield rem, .Watching, es)
    | .boundary (some ret) bnd => (.yield ret, .Boundary bnd, es)
    | .boundary none bnd => (.fieldEnd, .Boundary bnd, es)
    | .partialB res =>
      -- loop: state is now Partial(rem, res); poll the next event
      (match es with
       | [] => (.err (.malformedBoundary B rem), .End, [])
       | .pending :: t => (.pending, .Partial rem res, t)
       | .chunk c2 :: t =>
         ((partialNext B rem res c2).1, (partialNext B rem res c2).2, t))
    | .empty =>
      -- rem was empty: loop re-enters the Watching branch on the same events
      (match es with
       | [] => (.fieldEnd, .End, [])
       | .pending :: t => (.pending, .Watching, t)
       | .chunk c :: t =>
         if c = [] then (.yield c, .Watching, t)
         else
           match checkChunk B c with
           | .noBoundary => (.yield c, .Watching, t)
           | .boundary (some ret) bnd => (.yield ret, .Boundary bnd, t)
           | .boundary none bnd => (.fieldEnd, .Boundary bnd, t)
           | .partialB res =>
             (match t with
              | [] => (.err (.malformedBoundary B c), .End, [])
              | .pending :: t2 => (.pending, .Partial c res, t2)
              | .chunk c2 :: t2 =>
                ((partialNext B c res c2).1, (partialNext B c res c2).2, t2))
           | .empty => bodyChunk B .Watching t)

/-- `check_last_two(boundary)` from `src/server/boundary.rs`:  `true` iff
the slice ends with `--`.  (A mismatch that is neither `--` nor `\r\n`
only produces a `warn!` log line, not an error.) -/
def checkLastTwo (bd : List Nat) : Bool :=
  [DASH, DASH].isSuffixOf bd

/-- `BoundaryFinder::confirm_boundary` from `src/server/boundary.rs`.
Returns the poll result and the state after the call. -/
def confirmBoundary (B bnd : List Nat) : CBOut × State :=
  if bnd.length < boundarySize B false then
    (.err (.boundaryTooShort bnd), .Watching)
  else
    let bd := bnd.take (boundarySize B false)
    let rem := bnd.drop (boundarySize B false)
    let st : State := if rem ≠ [] then .Remainder rem else .Watching
    if checkLastTwo bd then (.ok false, .End) else (.ok true, st)

/-- `BoundaryFinder::confirm_boundary_split` from
`src/server/boundary.rs`.  `boundary_size(false) - first.len()` is a
usize subtraction, which panics on underflow. -/
def confirmBoundarySplit (B first second : List Nat) : CBOut × State :=
  if boundarySize B false < first.length then
    (.panic, .Watching)
  else
    let checkLen := boundarySize B false - first.length
    if second.length < checkLen then
      (.err (.splitBoundaryTooShort first second), .Watching)
    else
      let sec := second.take checkLen
      let rem := second.drop checkLen
      if checkLastTwo sec then (.ok false, .End) else (.ok true, .Remainder rem)

/-- `BoundaryFinder::consume_boundary` from `src/server/boundary.rs`:
drain `body_chunk` until it reports `None`, then confirm the located
boundary.  The explicit fuel bounds the number of drained chunks; any
fuel larger than the number of stream events is sufficient. -/
def consumeBoundary (B : List Nat) :
    Nat → State → List Event → CBOut × State × List Event
  | 0, s, es => (.fuelOut, s, es)
  | fuel + 1, s, es =>
    match bodyChunk B s es with
    | (.yield _, s', es') => consumeBoundary B fuel s' es'
    | (.pending, s', es') => (.pending, s', es')
    | (.err e, s', es') => (.err e, s', es')
    | (.panic, s', es') => (.panic, s', es')
    | (.fieldEnd, s', es') =>
      match s' with
      | .Boundary bnd =>
        ((confirmBoundary B bnd).1, (confirmBoundary B bnd).2, es')
      | .BoundarySplit a b =>
        ((confirmBoundarySplit B a b).1, (confirmBoundarySplit B a b).2, es')
      | .End => (.ok false, .End, es')
      | s'' => (.panic, s'', es')  -- unreachable!("invalid state")

/-- The boundary used throughout the repository's tests and fuzzing
harness:  `BOUNDARY = "--boundary"` (`src/test_util.rs`). -/
def testBoundary : List Nat := [45, 45, 98, 111, 117, 110, 100, 97, 114, 121]

/-- Whether `needle` occurs as a contiguous substring of `haystack`
(the property asserted by `fuzz_boundary_finder` via
`twoway::find_bytes(chunk, BOUNDARY) == None`). -/
def containsBytes (haystack needle : List Nat) : Bool :=
  (findBytes haystack needle).isSome

/-- The non-empty branch of `check_chunk` never produces the `empty`
outcome. -/
theorem checkChunk_ne_empty {B c : List Nat} (h : c ≠ []) :
    checkChunk B c ≠ .empty := by
  unfold checkChunk
  simp only [if_neg h]
  cases findBoundary B c with
  | none => simp
  | some res => dsimp only; split <;> simp

/-- `partialNext` never reports `Poll::Pending`, and whenever it yields or
ends it leaves a state other than `Watching`/`Partial` only as
`Remainder`/`BoundarySplit`. -/
theorem partialNext_ne_pending (B p : List Nat) (r : SearchResult)
    (c : List Nat) : (partialNext B p r c).1 ≠ .pending := by
  simp only [partialNext]
  split_ifs <;> simp

/-- If a `body_chunk` poll returns `Poll::Pending`, the state it leaves
behind is either `Watching` or a held `Partial`. -/
theorem bodyChunk_pending_state (B : List Nat) (s : State) (es : List Event)
    (hp : (bodyChunk B s es).1 = .pending) :
    (bodyChunk B s es).2.1 = .Watching ∨
      ∃ p r, (bodyChunk B s es).2.1 = .Partial p r := by
  cases s with
  | Boundary b => simp [bodyChunk] at hp
  | BoundarySplit a b => simp [bodyChunk] at hp
  | End => simp [bodyChunk] at hp
  | Partial p r =>
    cases es with
    | nil => simp [bodyChunk] at hp
    | cons e t =>
      cases e with
      | pending => exact Or.inr ⟨p, r, rfl⟩
      | chunk c =>
        exact absurd hp (partialNext_ne_pending B p r c)
  | Watching =>
    cases es with
    | nil => simp [bodyChunk] at hp
    | cons e t =>
      cases e with
      | pending => exact Or.inl rfl
      | chunk c =>
        by_cases hc : c = []
        · simp [bodyChunk, hc] at hp
        · simp only [bodyChunk, if_neg hc] at hp ⊢
          revert hp
          cases hscan : checkChunk B c with
          | empty => exact absurd hscan (checkChunk_ne_empty hc)
          | noBoundary => intro hp; simp at hp
          | partialB res =>
            intro hp
            cases t with
            | nil => simp at hp
            | cons e2 t2 =>
              cases e2 with
              | pending => exact Or.inr ⟨c, res, rfl⟩
              | chunk c2 =>
                exact absurd hp (partialNext_ne_pending B c res c2)
          | boundary ret bnd => intro hp; cases ret <;> simp at hp
  | Remainder rem =>
    cases es with
    | nil =>
      simp only [bodyChunk] at hp ⊢
      revert hp
      cases hscan : checkChunk B rem with
      | noBoundary => intro hp; simp at hp
      | boundary ret bnd => intro hp; cases ret <;> simp at hp
      | partialB res => intro hp; simp at hp
      | empty => intro hp; simp at hp
    | cons e t =>
      cases e with
      | pending =>
        simp only [bodyChunk] at hp ⊢
        revert hp
        cases hscan : checkChunk B rem with
        | noBoundary => intro hp; simp at hp
        | boundary ret bnd => intro hp; cases ret <;> simp at hp
        | partialB res => intro hp; exact Or.inr ⟨rem, res, rfl⟩
        | empty => intro hp; exact Or.inl rfl
      | chunk c =>
        simp only [bodyChunk] at hp ⊢
        revert hp
        cases hscan : checkChunk B rem with
        | noBoundary => intro hp; simp at hp
        | boundary ret bnd => intro hp; cases ret <;> simp at hp
        | partialB res =>
          intro hp
          exact absurd hp (partialNext_ne_pending B rem res c)
        | empty =>
          by_cases hc : c = []
          · intro hp; simp [hc] at hp
          · simp only [if_neg hc]
            revert hc
            cases hscan2 : checkChunk B c with
            | empty =>
              intro hc
              exact absurd hscan2 (checkChunk_ne_empty hc)
            | noBoundary => intro hc hp; simp at hp
            | partialB res =>
              intro hc hp
              cases t with
              | nil => simp at hp
              | cons e2 t2 =>
                cases e2 with
                | pending => exact Or.inr ⟨c, res, rfl⟩
                | chunk c2 =>
                  exact absurd hp (partialNext_ne_pending B c res c2)
            | boundary ret bnd =>
              intro hc hp
              cases ret <;> simp at hp

/-!
## Claim theorems for the boundary scanner
-/

/-- C1: the claim states that no payload chunk returned by
`BoundaryFinder::body_chunk` ever contains the boundary as a substring.
This theorem refutes it on the code:  with boundary `--boundary` and the
input chunks `"xx--boundary"` then `"ab"`, the very first `body_chunk`
poll yields the payload chunk `"xx--boundary"`, which contains the full
boundary.  (`check_chunk` holds the chunk as `Partial` because the two
bytes after the boundary are missing; on the next chunk,
`is_boundary_prefix` compares the whole held chunk — not the held tail
from `res.idx` — against the boundary, fails, and releases the entire
held chunk as payload.) -/
theorem c1_boundary_substring_in_yielded_chunk :
    bodyChunk testBoundary .Watching
        [.chunk [120, 120, 45, 45, 98, 111, 117, 110, 100, 97, 114, 121],
         .chunk [97, 98]]
      = (.yield [120, 120, 45, 45, 98, 111, 117, 110, 100, 97, 114, 121],
         .Remainder [97, 98], [])
    ∧ containsBytes
        [120, 120, 45, 45, 98, 111, 117, 110, 100, 97, 114, 121]
        testBoundary = true := by
  decide

/-- C2: the claim states that for any chunk partitioning, the
concatenation of the payload chunks yielded for a field equals the wire
payload between the delimiters.  This theorem refutes it on the code:
for the body `--boundary\r\n` ++ `xx` ++ `\r\n--boundary--` split as
chunks `["--boundary\r\n", "xx\r", "\n--boundary--"]`, the wire payload
of the field is `"xx"`, but after `consume_boundary` reports a field the
scanner yields payload chunks `"xx\r"` and then `"\n"`, whose
concatenation `"xx\r\n"` differs from `"xx"`. -/
theorem c2_field_chunks_concatenation_differs_from_payload :
    consumeBoundary testBoundary 10 .Watching
        [.chunk [45, 45, 98, 111, 117, 110, 100, 97, 114, 121, 13, 10],
         .chunk [120, 120, 13],
         .chunk [10, 45, 45, 98, 111, 117, 110, 100, 97, 114, 121, 45, 45]]
      = (.ok true, .Watching,
         [.chunk [120, 120, 13],
          .chunk [10, 45, 45, 98, 111, 117, 110, 100, 97, 114, 121, 45, 45]])
    ∧ bodyChunk testBoundary .Watching
        [.chunk [120, 120, 13],
         .chunk [10, 45, 45, 98, 111, 117, 110, 100, 97, 114, 121, 45, 45]]
      = (.yield [120, 120, 13],
         .Remainder [10, 45, 45, 98, 111, 117, 110, 100, 97, 114, 121, 45, 45],
         [])
    ∧ bodyChunk testBoundary
        (.Remainder [10, 45, 45, 98, 111, 117, 110, 100, 97, 114, 121, 45, 45])
        []
      = (.yield [10],
         .Boundary [45, 45, 98, 111, 117, 110, 100, 97, 114, 121, 45, 45], [])
    ∧ bodyChunk testBoundary
        (.Boundary [45, 45, 98, 111, 117, 110, 100, 97, 114, 121, 45, 45]) []
      = (.fieldEnd,
         .Boundary [45, 45, 98, 111, 117, 110, 100, 97, 114, 121, 45, 45], [])
    ∧ [120, 120, 13] ++ [10] ≠ [120, 120] := by
  decide

/-- C3: the claim states that a CRLF immediately preceding a boundary is
never included in the payload chunk yielded before the boundary, also
when the CRLF/boundary straddles a chunk edge.  This theorem refutes the
straddling case on the code:  after the opening boundary, for the field
chunks `["yy\r\n", "--boundary--"]` (wire payload `"yy"`, then
CRLF ++ close delimiter), the scanner yields the payload chunk
`"yy\r\n"` — the CRLF that belongs to the following boundary delimiter
is included in the payload.  (`partial_find_boundary` correctly holds
`"yy\r\n"` with `idx = 2, incl_crlf = true`, but `is_boundary_prefix`
then compares the whole held chunk against `\r\n--boundary`, fails, and
releases the CRLF as payload.) -/
theorem c3_crlf_before_boundary_included_in_payload :
    bodyChunk testBoundary .Watching
        [.chunk [121, 121, 13, 10],
         .chunk [45, 45, 98, 111, 117, 110, 100, 97, 114, 121, 45, 45]]
      = (.yield [121, 121, 13, 10],
         .Remainder [45, 45, 98, 111, 117, 110, 100, 97, 114, 121, 45, 45],
         [])
    ∧ (List.drop 2 [121, 121, 13, 10] = CRLF) := by
  decide

/-- C4 counterexample: the claim states that `consume_boundary` fails
with an `UnexpectedBoundarySuffix` error when the two bytes after the
boundary are neither `\r\n` nor `--`.  On the input chunk
`"--boundaryXY"` (suffix `"XY"`), `consume_boundary` instead reports
success `Ok(true)`:  `check_last_two` only tests for a trailing `--`
(and merely logs a warning otherwise), so no error of that kind exists
in the code. -/
theorem c4_unexpected_suffix_reports_success_counterexample :
    consumeBoundary testBoundary 10 .Watching
        [.chunk [45, 45, 98, 111, 117, 110, 100, 97, 114, 121, 88, 89]]
      = (.ok true, .Watching, [])
    ∧ [88, 89] ≠ CRLF ∧ [88, 89] ≠ [DASH, DASH] := by
  decide

/-- C4 (amended): when `confirm_boundary` validates a complete boundary
sequence whose two bytes after the boundary string are neither `\r\n`
nor `--`, it reports success `Ok(true)` (logging a warning); it does not
fail. -/
theorem c4_unexpected_suffix_reports_success (B bnd : List Nat)
    (hlen : boundarySize B false ≤ bnd.length)
    (hsuff : (bnd.take (boundarySize B false)).drop B.length ≠ CRLF)
    (hdash : (bnd.take (boundarySize B false)).drop B.length ≠ [DASH, DASH]) :
    (confirmBoundary B bnd).1 = .ok true := by
  have hnotlt : ¬ bnd.length < boundarySize B false := not_lt.mpr hlen
  have htklen : (bnd.take (boundarySize B false)).length = boundarySize B false := by
    simp [List.length_take, Nat.min_eq_left hlen]
  have hlast : checkLastTwo (bnd.take (boundarySize B false)) = false := by
    by_contra hne
    have htrue : checkLastTwo (bnd.take (boundarySize B false)) = true := by
      revert hne
      cases checkLastTwo (bnd.take (boundarySize B false)) <;> simp
    have hsfx : [DASH, DASH] <:+ bnd.take (boundarySize B false) := by
      have h2 : List.isSuffixOf [DASH, DASH]
          (bnd.take (boundarySize B false)) = true := htrue
      exact List.isSuffixOf_iff_suffix.mp h2
    have := List.suffix_iff_eq_drop.mp hsfx
    rw [htklen] at this
    have hsz : boundarySize B false - [DASH, DASH].length = B.length := by
      simp [boundarySize]
    rw [hsz] at this
    exact hdash this.symm
  simp only [confirmBoundary, if_neg hnotlt, hlast]
  simp

/-- C4 (amended) witness: the theorem applied to the concrete boundary
`--boundary` and boundary sequence `--boundaryXY`. -/
theorem c4_unexpected_suffix_reports_success_witness :
    (confirmBoundary testBoundary
        [45, 45, 98, 111, 117, 110, 100, 97, 114, 121, 88, 89]).1 = .ok true :=
  c4_unexpected_suffix_reports_success testBoundary
    [45, 45, 98, 111, 117, 110, 100, 97, 114, 121, 88, 89]
    (by decide) (by decide) (by decide)

/-- C5: if the input stream ends (`Poll::Ready(None)`) while the scanner
holds a `Partial` match, the next `body_chunk` poll — and likewise
`consume_boundary`, which drives `body_chunk` — returns the
"unable to verify multipart boundary" error (`MalformedBoundary`),
does not yield the held bytes, and does not report a normal end of
stream.  This holds for every boundary, every held chunk and every
search result. -/
theorem c5_eof_during_partial_is_malformed_boundary (B p : List Nat)
    (r : SearchResult) (n : Nat) :
    bodyChunk B (.Partial p r) [] = (.err (.malformedBoundary B p), .End, [])
    ∧ consumeBoundary B (n + 1) (.Partial p r) []
      = (.err (.malformedBoundary B p), .End, []) := by
  constructor
  · rfl
  · simp [consumeBoundary, bodyChunk]

/-- C8: if a `body_chunk` poll returns `Poll::Pending` (because the
underlying stream returned `Pending`), then re-polling without the
underlying input advancing (the stream again reports `Pending`) returns
`Pending` again and leaves the scanner state unchanged, both for
`body_chunk` and for `consume_boundary`; polling makes no hidden state
advance. -/
theorem c8_repoll_after_pending_returns_pending (B : List Nat) (s : State)
    (es : List Event) (hp : (bodyChunk B s es).1 = .pending) :
    ∀ es₂ n,
      bodyChunk B (bodyChunk B s es).2.1 (.pending :: es₂)
        = (.pending, (bodyChunk B s es).2.1, es₂)
      ∧ consumeBoundary B (n + 1) (bodyChunk B s es).2.1 (.pending :: es₂)
        = (.pending, (bodyChunk B s es).2.1, es₂) := by
  intro es₂ n
  rcases bodyChunk_pending_state B s es hp with hw | ⟨p, r, hpr⟩
  · rw [hw]
    exact ⟨rfl, by simp [consumeBoundary, bodyChunk]⟩
  · rw [hpr]
    exact ⟨rfl, by simp [consumeBoundary, bodyChunk]⟩

/-- C8 witness: with boundary `--boundary`, a stream whose next event is
`Pending` makes `body_chunk` return `Pending` from the `Watching` state;
re-polling on another `Pending` returns `Pending` with the state still
`Watching`. -/
theorem c8_repoll_after_pending_returns_pending_witness :
    bodyChunk testBoundary
        (bodyChunk testBoundary .Watching [Event.pending]).2.1
        [Event.pending]
      = (.pending,
         (bodyChunk testBoundary .Watching [Event.pending]).2.1, [])
    ∧ consumeBoundary testBoundary 1
        (bodyChunk testBoundary .Watching [Event.pending]).2.1
        [Event.pending]
      = (.pending,
         (bodyChunk testBoundary .Watching [Event.pending]).2.1, []) :=
  c8_repoll_after_pending_returns_pending testBoundary .Watching
    [Event.pending] (by decide) [] 0

/-- C9: the claim states that `body_chunk` never yields an empty payload
chunk.  This theorem refutes it on the code:  if the input stream
produces an empty chunk while the scanner is in the `Watching` state,
the "For sanity" early return in `body_chunk` yields that empty chunk
directly to the consumer instead of filtering it. -/
theorem c9_empty_input_chunk_is_yielded :
    bodyChunk testBoundary .Watching [.chunk []]
      = (.yield [], .Watching, []) := by
  decide

/-!
## Header accumulation (`src/server/field/headers.rs`)
-/

/-- The double-CRLF header terminator `\r\n\r\n` (`CRLF2` in
`src/server/field/headers.rs`). -/
def CRLF2 : List Nat := [13, 10, 13, 10]

/-- `MAX_BUF_LEN` from `src/server/field/headers.rs`. -/
def MAX_BUF_LEN : Nat := 1024

/-- `MAX_HEADERS` from `src/server/field/headers.rs`. -/
def MAX_HEADERS : Nat := 4

/-- `split_subcheck(start, first, second)` from
`src/server/field/headers.rs`:
`first.len() >= start && first[first.len()-start..].iter().chain(second).take(4).eq(CRLF2)`. -/
def splitSubcheck (start : Nat) (first second : List Nat) : Bool :=
  start ≤ first.length ∧ ((first.drop (first.length - start)) ++ second).take 4 = CRLF2

/-- `header_end_split(first, second)` from
`src/server/field/headers.rs`:  if the double-CRLF straddles the
accumulator/chunk edge, the split index into the second chunk. -/
def headerEndSplit (first second : List Nat) : Option Nat :=
  if splitSubcheck 3 first second then some 1
  else if splitSubcheck 2 first second then some 2
  else if splitSubcheck 1 first second then some 3
  else none

/-- Outcome of processing one chunk inside the `read_headers` loop:
`done headerBytes rem` means the terminator was found (`headerBytes` is
the byte buffer handed to `parse_headers`, `rem` is pushed back);
`cont acc` means the chunk was absorbed into the accumulator;
`tooLarge` is the "headers section too long" error; `fuelOut` marks
exhaustion of the explicit fuel (never reached with fuel at least the
chunk length, since every `header_end_split` push-back strictly shrinks
the chunk). -/
inductive RHStep where
  | done (headerBytes rem : List Nat)
  | cont (acc : List Nat)
  | tooLarge
  | fuelOut
deriving Repr, DecidableEq

/-- One iteration chain of `ReadHeaders::read_headers` from
`src/server/field/headers.rs` on the current accumulator and one chunk.
A `header_end_split` hit appends the head of the chunk to the
accumulator, pushes the tail back, and continues — the pushed-back tail
is the next chunk the loop sees, so it is processed by direct recursion
here.  The second component of the result is the maximum accumulator
length produced by the extends performed during this terminator search
(`0` when no extend happened); the transient extension with the final
header bytes in the `done` branch, which is immediately parsed and
cleared, is not tracked.  Note the Rust code performs no size check in
the `header_end_split` branch. -/
def rhStepF : Nat → List Nat → List Nat → RHStep × Nat
  | 0, acc, chunk =>
    (match findBytes chunk CRLF2 with
     | some i =>
       if acc = [] then (.done (chunk.take (i + 4)) (chunk.drop (i + 4)), 0)
       else (.done (acc ++ chunk.take (i + 4)) (chunk.drop (i + 4)), 0)
     | none =>
       match headerEndSplit acc chunk with
       | some _ => (.fuelOut, 0)
       | none =>
         if MAX_BUF_LEN < acc.length + chunk.length then (.tooLarge, 0)
         else (.cont (acc ++ chunk), (acc ++ chunk).length))
  | fuel + 1, acc, chunk =>
    (match findBytes chunk CRLF2 with
     | some i =>
       if acc = [] then (.done (chunk.take (i + 4)) (chunk.drop (i + 4)), 0)
       else (.done (acc ++ chunk.take (i + 4)) (chunk.drop (i + 4)), 0)
     | none =>
       match headerEndSplit acc chunk with
       | some splitIdx =>
         let acc2 := acc ++ chunk.take splitIdx
         let out := rhStepF fuel acc2 (chunk.drop splitIdx)
         (out.1, max acc2.length out.2)
       | none =>
         if MAX_BUF_LEN < acc.length + chunk.length then (.tooLarge, 0)
         else (.cont (acc ++ chunk), (acc ++ chunk).length))

/-- `rhStepF` with sufficient fuel (one unit per byte of the chunk). -/
def rhStep (acc chunk : List Nat) : RHStep × Nat :=
  rhStepF chunk.length acc chunk

/-- Final outcome of `ReadHeaders::read_headers` over a whole stream of
payload chunks:  `done` carries the bytes handed to `parse_headers`, the
pushed-back remainder and the unread chunks; `eofErr` is the
"unexpected end of stream" error; `endOfStream` is `Ready(None)`. -/
inductive RHOut where
  | done (headerBytes rem : List Nat) (rest : List (List Nat))
  | tooLarge
  | eofErr
  | endOfStream
  | fuelOut
deriving Repr, DecidableEq

/-- `ReadHeaders::read_headers` from `src/server/field/headers.rs`,
driven over a list of payload chunks, also returning the maximum
accumulator length reached during terminator search. -/
def readHeadersTrace (acc : List Nat) : List (List Nat) → RHOut × Nat
  | [] => ((if acc = [] then RHOut.endOfStream else RHOut.eofErr), 0)
  | c :: cs =>
    let s := rhStep acc c
    match s.1 with
    | .done hb rem => (.done hb rem cs, s.2)
    | .cont acc' =>
      let out := readHeadersTrace acc' cs
      (out.1, max s.2 out.2)
    | .tooLarge => (.tooLarge, s.2)
    | .fuelOut => (.fuelOut, s.2)

/-!
## UTF-8 validation (model of Rust `str::from_utf8`) and
`ReadToString` (`src/server/field/mod.rs`)
-/

/-- `utf8_char_width(first)` from `src/server/field/mod.rs`. -/
def utf8CharWidth (first : Nat) : Option Nat :=
  if first ≤ 0x7F then some 1
  else if 0xC2 ≤ first ∧ first ≤ 0xDF then some 2
  else if 0xE0 ≤ first ∧ first ≤ 0xEF then some 3
  else if 0xF0 ≤ first ∧ first ≤ 0xF4 then some 4
  else none

/-- Result of Rust's `str::from_utf8` on a byte buffer:  `ok` means the
whole buffer is valid UTF-8; `soft u` models `Utf8Error` with
`valid_up_to() = u` and `error_len() = None` (the buffer ends with an
incomplete but so-far-valid sequence); `hard u` models
`valid_up_to() = u` and `error_len() = Some(_)` (a true decoding
error). -/
inductive VRes where
  | ok
  | soft (validUpTo : Nat)
  | hard (validUpTo : Nat)
deriving Repr, DecidableEq

/-- Shift the `valid_up_to` offset of a validation result by `k` (used
when `k` already-validated bytes precede the buffer). -/
def VRes.shift : VRes → Nat → VRes
  | .ok, _ => .ok
  | .soft u, k => .soft (u + k)
  | .hard u, k => .hard (u + k)

/-- Continuation byte check (`0x80..=0xBF`), as in the Rust standard
library's UTF-8 validator. -/
def contOk (b : Nat) : Bool := 0x80 ≤ b ∧ b ≤ 0xBF

/-- Second-byte check of a three-byte sequence (std `run_utf8_validation`:
`0xE0` requires `0xA0..=0xBF`, `0xED` requires `0x80..=0x9F`, otherwise
`0x80..=0xBF`). -/
def snd3Ok (lead b : Nat) : Bool :=
  if lead = 0xE0 then 0xA0 ≤ b ∧ b ≤ 0xBF
  else if lead = 0xED then 0x80 ≤ b ∧ b ≤ 0x9F
  else contOk b

/-- Second-byte check of a four-byte sequence (std `run_utf8_validation`:
`0xF0` requires `0x90..=0xBF`, `0xF4` requires `0x80..=0x8F`, otherwise
`0x80..=0xBF`). -/
def snd4Ok (lead b : Nat) : Bool :=
  if lead = 0xF0 then 0x90 ≤ b ∧ b ≤ 0xBF
  else if lead = 0xF4 then 0x80 ≤ b ∧ b ≤ 0x8F
  else contOk b

/-- Model of the Rust standard library's UTF-8 validation
(`str::from_utf8` / `run_utf8_validation`), byte by byte.  ASCII bytes
advance by one; a multi-byte lead consumes its continuation bytes,
checking each against its allowed range; running out of bytes with all
present checks passing is a `soft` error at the sequence start; a
failing check or an invalid lead is a `hard` error at the sequence
start. -/
def utf8Validate : List Nat → VRes
  | [] => .ok
  | b :: l =>
    if b ≤ 0x7F then (utf8Validate l).shift 1
    else if 0xC2 ≤ b ∧ b ≤ 0xDF then
      match l with
      | [] => .soft 0
      | c :: l2 =>
        if contOk c then (utf8Validate l2).shift 2 else .hard 0
    else if 0xE0 ≤ b ∧ b ≤ 0xEF then
      match l with
      | [] => .soft 0
      | c :: l2 =>
        if snd3Ok b c then
          match l2 with
          | [] => .soft 0
          | d :: l3 =>
            if contOk d then (utf8Validate l3).shift 3 else .hard 0
        else .hard 0
    else if 0xF0 ≤ b ∧ b ≤ 0xF4 then
      match l with
      | [] => .soft 0
      | c :: l2 =>
        if snd4Ok b c then
          match l2 with
          | [] => .soft 0
          | d :: l3 =>
            if contOk d then
              match l3 with
              | [] => .soft 0
              | e :: l4 =>
                if contOk e then (utf8Validate l4).shift 4 else .hard 0
            else .hard 0
        else .hard 0
    else .hard 0

/-- The state of `ReadToString` from `src/server/field/mod.rs`:  the
accumulated string (UTF-8 bytes, since a Rust `String` is its UTF-8
byte buffer and `push_str` appends bytes) and the retained surrogate
buffer (`surrogate: Option<([u8; 3], u8)>`; `[]` models `None`,
otherwise the list holds `start[..start_len]`). -/
structure RTSState where
  string : List Nat
  surrogate : List Nat
deriving Repr, DecidableEq

/-- Error/panic outcomes of `ReadToString::poll`. -/
inductive RTSErr where
  /-- "unexpected start of UTF-8 surrogate: .." -/
  | unexpectedStart (b : Nat)
  /-- `Err(Utf8(e))` — a true UTF-8 decoding error. -/
  | utf8Error
  /-- "incomplete UTF-8 surrogate: .." at end of stream. -/
  | incomplete (start : List Nat)
  /-- A Rust panic:  the `assert!` on `start_len`, the
  `checked_sub(..).expect(..)`, or a `copy_from_slice` into the 3-byte
  `start` array with more than 3 bytes.  Unreachable in any run. -/
  | panicked
deriving Repr, DecidableEq

/-- The `match str::from_utf8(data.as_slice())` block at the bottom of
`ReadToString::poll` (`src/server/field/mod.rs` lines 225-247):  a fully
valid chunk is appended; a hard error aborts; an incomplete tail keeps
the valid prefix and retains the (at most three, guaranteed by
`from_utf8`; the model panics otherwise exactly like the fixed-size
`[u8; 3]` copy would) trailing bytes as the new surrogate. -/
def pushData (st : RTSState) (data : List Nat) : Except RTSErr RTSState :=
  match utf8Validate data with
  | .ok => .ok ⟨st.string ++ data, []⟩
  | .hard _ => .error .utf8Error
  | .soft u =>
    if 3 < (data.drop u).length then .error .panicked
    else .ok ⟨st.string ++ data.take u, data.drop u⟩

/-- One loop iteration of `ReadToString::poll` on a chunk `data`
(`src/server/field/mod.rs` lines 183-247):  first complete a held
surrogate (retaining everything when the chunk is shorter than the
missing suffix), then validate the remainder of the chunk. -/
def rtsStep (st : RTSState) (data : List Nat) : Except RTSErr RTSState :=
  match st.surrogate with
  | [] => pushData st data
  | b :: t =>
    -- assert!(start_len > 0 && start_len < 4)
    if 4 ≤ (b :: t).length then .error .panicked
    else
      match utf8CharWidth b with
      | none => .error (.unexpectedStart b)
      | some width =>
        -- width.checked_sub(start_len).expect("start_len >= width")
        if width < (b :: t).length then .error .panicked
        else
          let needed := width - (b :: t).length
          if data.length < needed then
            .ok ⟨st.string, (b :: t) ++ data⟩
          else
            let surr := (b :: t) ++ data.take needed
            match utf8Validate surr with
            | .ok => pushData ⟨st.string ++ surr, []⟩ (data.drop needed)
            | _ => .error .utf8Error

/-- `ReadToString::poll` driven over a list of chunks (a `Pending` from
the underlying stream suspends the future without touching `string` or
`surrogate`, so only the data chunks matter). -/
def rtsRun (st : RTSState) : List (List Nat) → Except RTSErr RTSState
  | [] => .ok st
  | c :: cs =>
    match rtsStep st c with
    | .ok st' => rtsRun st' cs
    | .error e => .error e

/-- The complete `ReadToString` future on a chunked field body:  run all
chunks, then fail with "incomplete UTF-8 surrogate" if a surrogate is
still held, otherwise return the accumulated string. -/
def readToString (chunks : List (List Nat)) : Except RTSErr (List Nat) :=
  match rtsRun ⟨[], []⟩ chunks with
  | .error e => .error e
  | .ok st =>
    if st.surrogate = [] then .ok st.string else .error (.incomplete st.surrogate)

/-!
## Lemmas about `findBytes` and the header terminator search
-/

/-- `findBytes` returns `none` exactly when the needle does not occur as
a contiguous substring of the haystack. -/
theorem findBytes_eq_none_iff (n : List Nat) :
    ∀ h, findBytes h n = none ↔ ¬ n <:+: h := by
  intro h
  induction h with
  | nil =>
    rw [findBytes]
    cases hp : n.isPrefixOf ([] : List Nat) with
    | true =>
      have : n <+: ([] : List Nat) := List.isPrefixOf_iff_prefix.mp hp
      simp [this.isInfix]
    | false =>
      have : ¬ n <+: ([] : List Nat) := by
        intro hc
        rw [← List.isPrefixOf_iff_prefix] at hc
        rw [hp] at hc
        exact Bool.false_ne_true hc
      have hne : n ≠ [] := fun he => this (he ▸ List.nil_prefix)
      simp [hne]
  | cons x t ih =>
    rw [findBytes]
    cases hp : n.isPrefixOf (x :: t) with
    | true =>
      have : n <+: x :: t := List.isPrefixOf_iff_prefix.mp hp
      simp [this.isInfix]
    | false =>
      have hnp : ¬ n <+: x :: t := by
        intro hc
        rw [← List.isPrefixOf_iff_prefix] at hc
        rw [hp] at hc
        exact Bool.false_ne_true hc
      simp only [Bool.false_eq_true, if_false]
      cases hf : findBytes t n with
      | none =>
        have hninf : ¬ n <:+: t := (ih).mp hf
        simp [List.infix_cons_iff, hnp, hninf]
      | some v =>
        have hne : findBytes t n ≠ none := by simp [hf]
        have hinf : n <:+: t := not_not.mp (mt ih.mpr hne)
        simp [List.infix_cons_iff, hinf]

/-- A substring occurrence makes `findBytes` succeed. -/
theorem findBytes_ne_none_of_infix {n h : List Nat} (hi : n <:+: h) :
    findBytes h n ≠ none := fun he => (findBytes_eq_none_iff n h).mp he hi

/-- No substring occurrence in a list means none in any suffix of it. -/
theorem not_infix_drop {n c : List Nat} (hni : ¬ n <:+: c) (k : Nat) :
    ¬ n <:+: c.drop k := fun hi => hni (hi.trans (List.drop_suffix k c).isInfix)

/-- Unfolding of the `split_subcheck` boolean. -/
theorem splitSubcheck_eq_true_iff (s : Nat) (acc c : List Nat) :
    splitSubcheck s acc c = true ↔
      s ≤ acc.length ∧ ((acc.drop (acc.length - s)) ++ c).take 4 = CRLF2 := by
  simp [splitSubcheck]

/-- `header_end_split` on an empty second chunk never fires (the
4-element comparison cannot be satisfied by at most 3 bytes). -/
theorem headerEndSplit_nil (acc : List Nat) : headerEndSplit acc [] = none := by
  have hsub : ∀ s, s ≤ 3 → ¬ splitSubcheck s acc [] = true := by
    intro s hs h
    obtain ⟨hle, heq⟩ := (splitSubcheck_eq_true_iff s acc []).mp h
    have hlen : ((acc.drop (acc.length - s) ++ []).take 4).length = CRLF2.length := by
      rw [heq]
    rw [List.append_nil, List.length_take, List.length_drop] at hlen
    simp [CRLF2] at hlen
    omega
  simp only [headerEndSplit,
    if_neg (hsub 3 (by omega)), if_neg (hsub 2 (by omega)),
    if_neg (hsub 1 (by omega))]

/-- Decompose a successful `split_subcheck`:  the last `s` bytes of the
accumulator are the first `s` bytes of the terminator, and the first
`4 - s` bytes of the chunk are the rest of it. -/
theorem splitSubcheck_decompose {s : Nat} {acc c : List Nat} (hs : s ≤ 3)
    (h : splitSubcheck s acc c = true) :
    s ≤ acc.length ∧ acc.drop (acc.length - s) = CRLF2.take s
      ∧ c.take (4 - s) = CRLF2.drop s := by
  obtain ⟨hle, heq⟩ := (splitSubcheck_eq_true_iff s acc c).mp h
  have hdlen : (acc.drop (acc.length - s)).length = s := by
    rw [List.length_drop]; omega
  rw [List.take_append_eq_append_take, hdlen,
    List.take_of_length_le (by rw [hdlen]; omega)] at heq
  have hsplit : CRLF2 = CRLF2.take s ++ CRLF2.drop s :=
    (List.take_append_drop s CRLF2).symm
  rw [hsplit] at heq
  have hlens : (acc.drop (acc.length - s)).length = (CRLF2.take s).length := by
    rw [hdlen, List.length_take]
    simp only [CRLF2, List.length_cons, List.length_nil]
    omega
  obtain ⟨h1, h2⟩ := List.append_inj heq hlens
  exact ⟨hle, h1, h2⟩

/-- The possible hits of `header_end_split` and their split indices. -/
theorem headerEndSplit_cases {acc c : List Nat} {k : Nat}
    (h : headerEndSplit acc c = some k) :
    (k = 1 ∧ splitSubcheck 3 acc c = true)
    ∨ (k = 2 ∧ splitSubcheck 2 acc c = true)
    ∨ (k = 3 ∧ splitSubcheck 1 acc c = true) := by
  unfold headerEndSplit at h
  split_ifs at h with h3 h2 h1 <;> simp_all

/-- Appending on the right preserves suffixes. -/
theorem suffix_append_suffix {s l : List Nat} (x : List Nat) (h : s <:+ l) :
    s ++ x <:+ l ++ x := by
  obtain ⟨t, ht⟩ := h
  exact ⟨t, by rw [← ht, List.append_assoc]⟩

/-- After a `header_end_split` hit with sub-check `s`, the extended
accumulator ends with the full double-CRLF terminator. -/
theorem crlf2_suffix_after_split {acc c : List Nat} {s : Nat} (hs : s ≤ 3)
    (hs1 : 1 ≤ s) (h : splitSubcheck s acc c = true) :
    CRLF2 <:+ acc ++ c.take (4 - s) := by
  obtain ⟨hle, hdrop, htake⟩ := splitSubcheck_decompose hs h
  have h1 : CRLF2.take s <:+ acc := by
    apply List.suffix_iff_eq_drop.mpr
    have hl : (CRLF2.take s).length = s := by
      rw [List.length_take]
      simp only [CRLF2, List.length_cons, List.length_nil]
      omega
    rw [hl]
    exact hdrop.symm
  rw [htake]
  have h2 := suffix_append_suffix (CRLF2.drop s) h1
  rwa [List.take_append_drop] at h2

/-- When the accumulator already ends with the terminator, sub-check 3
cannot fire (the last three accumulator bytes are `\n\r\n`, not
`\r\n\r`). -/
theorem subcheck3_false_of_crlf2_suffix {acc c : List Nat}
    (h : CRLF2 <:+ acc) : ¬ splitSubcheck 3 acc c = true := by
  intro hsc
  have hlen : 4 ≤ acc.length := by
    have := h.length_le
    simpa [CRLF2] using this
  have hdrop4 : acc.drop (acc.length - 4) = CRLF2 := by
    have := List.suffix_iff_eq_drop.mp h
    simpa [CRLF2] using this.symm
  obtain ⟨-, hdrop3, -⟩ := splitSubcheck_decompose (by omega) hsc
  have h3 : acc.drop (acc.length - 3) = CRLF2.drop 1 := by
    have hd : List.drop 1 (acc.drop (acc.length - 4)) = acc.drop (acc.length - 3) := by
      rw [List.drop_drop]
      congr 1
      omega
    rw [← hd, hdrop4]
  rw [hdrop3] at h3
  simp [CRLF2] at h3

/-- When the accumulator already ends with the terminator, sub-check 1
cannot fire (the last accumulator byte is `\n`, not `\r`). -/
theorem subcheck1_false_of_crlf2_suffix {acc c : List Nat}
    (h : CRLF2 <:+ acc) : ¬ splitSubcheck 1 acc c = true := by
  intro hsc
  have hlen : 4 ≤ acc.length := by
    have := h.length_le
    simpa [CRLF2] using this
  have hdrop4 : acc.drop (acc.length - 4) = CRLF2 := by
    have := List.suffix_iff_eq_drop.mp h
    simpa [CRLF2] using this.symm
  obtain ⟨-, hdrop1, -⟩ := splitSubcheck_decompose (by omega) hsc
  have h1 : acc.drop (acc.length - 1) = CRLF2.drop 3 := by
    have hd : List.drop 3 (acc.drop (acc.length - 4)) = acc.drop (acc.length - 1) := by
      rw [List.drop_drop]
      congr 1
      omega
    rw [← hd, hdrop4]
  rw [hdrop1] at h1
  simp [CRLF2] at h1

/-- Two consecutive CRLFs at the head of a chunk form the terminator. -/
theorem crlf2_prefix_of_two_crlf {c : List Nat} (h1 : c.take 2 = [13, 10])
    (h2 : (c.drop 2).take 2 = [13, 10]) : CRLF2 <+: c := by
  have h4 : c.take 4 = CRLF2 := by
    have := List.take_add c 2 2
    rw [h1, h2] at this
    simpa [CRLF2] using this
  rw [← h4]
  exact List.take_prefix 4 c

/-- Search-phase accumulator bound for one chunk of `read_headers`:
entering a chunk the accumulator state is one of (initial, at most
1024), (ends with terminator after one split of size 1, at most 1025) or
(ends with terminator, at most 1027, next two chunk bytes not CRLF);
then no accumulator produced while searching this chunk exceeds 1027,
and a `cont` outcome is bound-checked back to 1024. -/
theorem rhStepF_bound (fuel : Nat) : ∀ acc c : List Nat,
    (acc.length ≤ 1024
      ∨ (CRLF2 <:+ acc ∧ acc.length ≤ 1025)
      ∨ (CRLF2 <:+ acc ∧ acc.length ≤ 1027 ∧ c.take 2 ≠ [13, 10])) →
    (rhStepF fuel acc c).2 ≤ 1027
      ∧ ∀ acc', (rhStepF fuel acc c).1 = .cont acc' → acc'.length ≤ 1024 := by
  induction fuel with
  | zero =>
    intro acc c hinv
    simp only [rhStepF]
    cases hfb : findBytes c CRLF2 with
    | some i =>
      by_cases hacc : acc = [] <;> simp [hacc]
    | none =>
      cases hsplit : headerEndSplit acc c with
      | some k => simp
      | none =>
        by_cases hbig : MAX_BUF_LEN < acc.length + c.length
        · simp [hbig]
        · simp only [if_neg hbig]
          refine ⟨?_, ?_⟩
          · simp only [List.length_append, MAX_BUF_LEN] at hbig ⊢
            omega
          · intro acc' ha
            have ha2 : RHStep.cont (acc ++ c) = RHStep.cont acc' := ha
            injection ha2 with ha3
            subst ha3
            simp only [List.length_append, MAX_BUF_LEN] at hbig ⊢
            omega
  | succ fuel ih =>
    intro acc c hinv
    simp only [rhStepF]
    cases hfb : findBytes c CRLF2 with
    | some i =>
      by_cases hacc : acc = [] <;> simp [hacc]
    | none =>
      cases hsplit : headerEndSplit acc c with
      | none =>
        by_cases hbig : MAX_BUF_LEN < acc.length + c.length
        · simp [hbig]
        · simp only [if_neg hbig]
          refine ⟨?_, ?_⟩
          · simp only [List.length_append, MAX_BUF_LEN] at hbig ⊢
            omega
          · intro acc' ha
            have ha2 : RHStep.cont (acc ++ c) = RHStep.cont acc' := ha
            injection ha2 with ha3
            subst ha3
            simp only [List.length_append, MAX_BUF_LEN] at hbig ⊢
            omega
      | some k =>
        have hnpre : ¬ CRLF2 <:+: c := (findBytes_eq_none_iff CRLF2 c).mp hfb
        -- establish the new invariant and the length bound for acc'
        have hmain : (acc ++ c.take k).length ≤ 1027 ∧
            ((acc ++ c.take k).length ≤ 1024
              ∨ (CRLF2 <:+ (acc ++ c.take k) ∧ (acc ++ c.take k).length ≤ 1025)
              ∨ (CRLF2 <:+ (acc ++ c.take k) ∧ (acc ++ c.take k).length ≤ 1027
                  ∧ (c.drop k).take 2 ≠ [13, 10])) := by
          rcases headerEndSplit_cases hsplit with ⟨hk, hsc⟩ | ⟨hk, hsc⟩ | ⟨hk, hsc⟩
          · -- k = 1, sub-check 3: appended byte is "\n"
            subst hk
            have hsuf : CRLF2 <:+ acc ++ c.take 1 :=
              crlf2_suffix_after_split (by omega) (by omega) hsc
            have hlen1 : (acc ++ c.take 1).length ≤ acc.length + 1 := by
              rw [List.length_append, List.length_take]
              omega
            rcases hinv with hA | ⟨hsufa, hB⟩ | ⟨hsufa, hC, hcc⟩
            · exact ⟨by omega, Or.inr (Or.inl ⟨hsuf, by omega⟩)⟩
            · exact absurd hsc (subcheck3_false_of_crlf2_suffix hsufa)
            · exact absurd hsc (subcheck3_false_of_crlf2_suffix hsufa)
          · -- k = 2, sub-check 2: appended bytes are "\r\n"
            subst hk
            have hsuf : CRLF2 <:+ acc ++ c.take 2 :=
              crlf2_suffix_after_split (by omega) (by omega) hsc
            obtain ⟨-, -, htake⟩ := splitSubcheck_decompose (by omega) hsc
            have htake2 : c.take 2 = [13, 10] := by
              simpa [CRLF2] using htake
            have hnext : (c.drop 2).take 2 ≠ [13, 10] := by
              intro hnx
              exact hnpre (crlf2_prefix_of_two_crlf htake2 hnx).isInfix
            have hlen2 : (acc ++ c.take 2).length ≤ acc.length + 2 := by
              rw [List.length_append, List.length_take]
              omega
            rcases hinv with hA | ⟨hsufa, hB⟩ | ⟨hsufa, hC, hcc⟩
            · exact ⟨by omega, Or.inr (Or.inr ⟨hsuf, by omega, hnext⟩)⟩
            · exact ⟨by omega, Or.inr (Or.inr ⟨hsuf, by omega, hnext⟩)⟩
            · exact absurd htake2 hcc
          · -- k = 3, sub-check 1: appended bytes are "\n\r\n"
            subst hk
            have hsuf : CRLF2 <:+ acc ++ c.take 3 :=
              crlf2_suffix_after_split (by omega) (by omega) hsc
            obtain ⟨-, -, htake⟩ := splitSubcheck_decompose (by omega) hsc
            have htake3 : c.take 3 = [10, 13, 10] := by
              simpa [CRLF2] using htake
            have hnext : (c.drop 3).take 2 ≠ [13, 10] := by
              intro hnx
              -- c would contain "\n\r\n\r\n", hence the terminator at index 1
              have h5 : c.take 5 = [10, 13, 10, 13, 10] := by
                have := List.take_add c 3 2
                rw [htake3, hnx] at this
                simpa using this
              have hinf : CRLF2 <:+: c := by
                have hsfx : CRLF2 <:+ c.take 5 := by
                  rw [h5]
                  exact ⟨[10], rfl⟩
                exact hsfx.isInfix.trans (List.take_prefix 5 c).isInfix
              exact hnpre hinf
            have hlen3 : (acc ++ c.take 3).length ≤ acc.length + 3 := by
              rw [List.length_append, List.length_take]
              omega
            rcases hinv with hA | ⟨hsufa, hB⟩ | ⟨hsufa, hC, hcc⟩
            · exact ⟨by omega, Or.inr (Or.inr ⟨hsuf, by omega, hnext⟩)⟩
            · exact absurd hsc (subcheck1_false_of_crlf2_suffix hsufa)
            · exact absurd hsc (subcheck1_false_of_crlf2_suffix hsufa)
        obtain ⟨hacc', hinv'⟩ := hmain
        have hrec := ih (acc ++ c.take k) (c.drop k) hinv'
        refine ⟨?_, ?_⟩
        · simp only [max_le_iff]
          exact ⟨hacc', hrec.1⟩
        · intro acc' ha
          exact hrec.2 acc' ha

/-- Failure of the terminator search:  if a chunk contains no terminator
and the accumulator plus the chunk exceed `MAX_BUF_LEN`, processing that
chunk ends in the "headers section too long" error (possibly after
terminator-overlap split steps, which preserve the total). -/
theorem rhStepF_tooLarge (fuel : Nat) : ∀ acc c : List Nat,
    c.length ≤ fuel → findBytes c CRLF2 = none →
    MAX_BUF_LEN < acc.length + c.length →
    (rhStepF fuel acc c).1 = .tooLarge := by
  induction fuel with
  | zero =>
    intro acc c hfuel hfb hbig
    have hc : c = [] := List.length_eq_zero.mp (by omega)
    subst hc
    simp only [rhStepF, hfb, headerEndSplit_nil]
    simp only [List.length_nil, Nat.add_zero] at hbig
    simp [hbig]
  | succ fuel ih =>
    intro acc c hfuel hfb hbig
    simp only [rhStepF, hfb]
    cases hsplit : headerEndSplit acc c with
    | none => simp [hbig]
    | some k =>
      have hk1 : 1 ≤ k ∧ k ≤ 3 := by
        rcases headerEndSplit_cases hsplit with ⟨hk, -⟩ | ⟨hk, -⟩ | ⟨hk, -⟩ <;>
          omega
      have hcne : c ≠ [] := by
        intro hc
        subst hc
        rw [headerEndSplit_nil] at hsplit
        exact Option.noConfusion hsplit
      have hclen : 1 ≤ c.length := by
        cases c with
        | nil => exact absurd rfl hcne
        | cons x t => simp
      have hnpre : ¬ CRLF2 <:+: c := (findBytes_eq_none_iff CRLF2 c).mp hfb
      have hfb' : findBytes (c.drop k) CRLF2 = none :=
        (findBytes_eq_none_iff CRLF2 (c.drop k)).mpr (not_infix_drop hnpre k)
      have hdlen : (c.drop k).length = c.length - k := by
        rw [List.length_drop]
      have htlen : (acc ++ c.take k).length = acc.length + min k c.length := by
        rw [List.length_append, List.length_take]
      have := ih (acc ++ c.take k) (c.drop k)
        (by omega) hfb' (by simp only [MAX_BUF_LEN] at hbig ⊢; omega)
      simpa using this

/-- The maximum search-phase accumulator length over a whole
`read_headers` run starting from an accumulator within the ceiling. -/
theorem readHeadersTrace_bound : ∀ (chunks : List (List Nat)) (acc : List Nat),
    acc.length ≤ 1024 → (readHeadersTrace acc chunks).2 ≤ 1027 := by
  intro chunks
  induction chunks with
  | nil => intro acc hacc; simp [readHeadersTrace]
  | cons c cs ih =>
    intro acc hacc
    have hb := rhStepF_bound c.length acc c (Or.inl hacc)
    rw [readHeadersTrace]
    cases hout : (rhStep acc c).1 with
    | done hb' rem => simpa [hout] using hb.1
    | tooLarge => simpa [hout] using hb.1
    | fuelOut => simpa [hout] using hb.1
    | cont acc' =>
      have hacc' := hb.2 acc' hout
      simp only [hout, max_le_iff]
      exact ⟨hb.1, ih acc' hacc'⟩

/-- Evaluation of `rhStepF` when the chunk holds neither the terminator
nor a terminator overlap with the accumulator. -/
theorem rhStepF_of_none_none (fuel : Nat) (acc c : List Nat)
    (h1 : findBytes c CRLF2 = none) (h2 : headerEndSplit acc c = none) :
    rhStepF fuel acc c =
      if MAX_BUF_LEN < acc.length + c.length then (.tooLarge, 0)
      else (.cont (acc ++ c), (acc ++ c).length) := by
  cases fuel <;> simp [rhStepF, h1, h2]

/-- Evaluation of `rhStepF` at a terminator-overlap hit. -/
theorem rhStepF_of_split (fuel : Nat) (acc c : List Nat) (k : Nat)
    (hf : 1 ≤ fuel) (h1 : findBytes c CRLF2 = none)
    (h2 : headerEndSplit acc c = some k) :
    rhStepF fuel acc c =
      ((rhStepF (fuel - 1) (acc ++ c.take k) (c.drop k)).1,
        max (acc ++ c.take k).length
          (rhStepF (fuel - 1) (acc ++ c.take k) (c.drop k)).2) := by
  cases fuel with
  | zero => omega
  | succ n => simp [rhStepF, h1, h2]

/-- The 1019-byte filler of the C6 counterexample. -/
def c6rep : List Nat := List.replicate 1019 97

/-- First chunk of the C6 counterexample:  1019 filler bytes followed by
`\r\n\r` (no terminator inside; the accumulator will end with a
3-byte terminator prefix). -/
def c6chunk1 : List Nat := c6rep ++ [13, 10, 13]

/-- Second chunk of the C6 counterexample:  `\n\r\nBB` (no terminator
inside; overlaps the accumulator tail twice). -/
def c6chunk2 : List Nat := [10, 13, 10, 66, 66]

theorem c6rep_length : c6rep.length = 1019 := by simp [c6rep]

theorem c6_drop_rep (x : List Nat) (m : Nat) (hm : 1019 ≤ m) :
    (c6rep ++ x).drop m = x.drop (m - 1019) := by
  rw [List.drop_append_eq_append_drop, List.drop_eq_nil_of_le, c6rep_length,
    List.nil_append]
  rw [c6rep_length]
  omega

theorem c6chunk1_length : c6chunk1.length = 1022 := by
  simp [c6chunk1, c6rep]

/-- A terminator match cannot start inside the filler (its first byte is
`\r`, the filler is all `a`s), so the search shifts past it. -/
theorem c6_findBytes_shift (n : Nat) (x : List Nat) :
    findBytes (List.replicate n 97 ++ x) CRLF2 = (findBytes x CRLF2).map (· + n) := by
  induction n with
  | zero =>
    simp only [List.replicate_zero, List.nil_append]
    cases findBytes x CRLF2 <;> simp
  | succ n ih =>
    rw [List.replicate_succ, List.cons_append, findBytes]
    have hpre : CRLF2.isPrefixOf (97 :: (List.replicate n 97 ++ x)) = false := by
      simp [CRLF2, List.isPrefixOf]
    rw [hpre]
    simp only [Bool.false_eq_true, if_false, ih]
    cases findBytes x CRLF2 with
    | none => simp
    | some v =>
      simp only [Option.map_some', Option.some.injEq]
      omega

theorem c6_find1 : findBytes c6chunk1 CRLF2 = none := by
  rw [c6chunk1, c6rep, c6_findBytes_shift 1019 [13, 10, 13]]
  rw [show findBytes [13, 10, 13] CRLF2 = none from by decide]
  rfl

theorem c6_hes1 : headerEndSplit [] c6chunk1 = none := by
  simp [headerEndSplit, splitSubcheck]

theorem c6_step1 : rhStep [] c6chunk1 = (.cont c6chunk1, 1022) := by
  have hno : ¬ MAX_BUF_LEN < ([] : List Nat).length + c6chunk1.length := by
    simp [MAX_BUF_LEN, c6chunk1_length]
  rw [rhStep, rhStepF_of_none_none _ _ _ c6_find1 c6_hes1, if_neg hno]
  simp [c6chunk1_length]

theorem c6_d1 : c6chunk1.drop (c6chunk1.length - 3) = [13, 10, 13] := by
  rw [c6chunk1_length]
  show c6chunk1.drop 1019 = [13, 10, 13]
  rw [c6chunk1, c6_drop_rep _ _ (by omega)]
  rfl

theorem c6_sc3_hit : splitSubcheck 3 c6chunk1 c6chunk2 = true := by
  rw [splitSubcheck_eq_true_iff]
  refine ⟨by rw [c6chunk1_length]; omega, ?_⟩
  rw [c6_d1]
  rfl

theorem c6_hes2 : headerEndSplit c6chunk1 c6chunk2 = some 1 := by
  simp [headerEndSplit, c6_sc3_hit]

/-- Accumulator after the first overlap split:  filler plus the full
terminator. -/
theorem c6_acc2_eq : c6chunk1 ++ [10] = c6rep ++ [13, 10, 13, 10] := by
  simp [c6chunk1]

theorem c6_acc2_length : (c6rep ++ [13, 10, 13, 10]).length = 1023 := by
  simp [c6rep]

theorem c6_find2 : findBytes [13, 10, 66, 66] CRLF2 = none := by decide

theorem c6_hes3 :
    headerEndSplit (c6rep ++ [13, 10, 13, 10]) [13, 10, 66, 66] = some 2 := by
  have hd3 : (c6rep ++ [13, 10, 13, 10]).drop
      ((c6rep ++ [13, 10, 13, 10]).length - 3) = [10, 13, 10] := by
    rw [c6_acc2_length]
    show (c6rep ++ [13, 10, 13, 10]).drop 1020 = [10, 13, 10]
    rw [c6_drop_rep _ _ (by omega)]
    rfl
  have hd2 : (c6rep ++ [13, 10, 13, 10]).drop
      ((c6rep ++ [13, 10, 13, 10]).length - 2) = [13, 10] := by
    rw [c6_acc2_length]
    show (c6rep ++ [13, 10, 13, 10]).drop 1021 = [13, 10]
    rw [c6_drop_rep _ _ (by omega)]
    rfl
  have hs3 : splitSubcheck 3 (c6rep ++ [13, 10, 13, 10]) [13, 10, 66, 66] = false := by
    rw [Bool.eq_false_iff]
    intro hsc
    obtain ⟨-, heq⟩ := (splitSubcheck_eq_true_iff _ _ _).mp hsc
    rw [hd3] at heq
    exact absurd heq (by decide)
  have hs2 : splitSubcheck 2 (c6rep ++ [13, 10, 13, 10]) [13, 10, 66, 66] = true := by
    rw [splitSubcheck_eq_true_iff]
    refine ⟨by rw [c6_acc2_length]; omega, ?_⟩
    rw [hd2]
    rfl
  unfold headerEndSplit
  rw [hs3, hs2]
  simp

/-- Accumulator after the second overlap split. -/
theorem c6_acc3_eq :
    (c6rep ++ [13, 10, 13, 10]) ++ [13, 10]
      = c6rep ++ [13, 10, 13, 10, 13, 10] := by
  simp

theorem c6_acc3_length : (c6rep ++ [13, 10, 13, 10, 13, 10]).length = 1025 := by
  simp [c6rep]

theorem c6_find3 : findBytes [66, 66] CRLF2 = none := by decide

theorem c6_hes4 :
    headerEndSplit (c6rep ++ [13, 10, 13, 10, 13, 10]) [66, 66] = none := by
  have hd : ∀ s : Nat, 1 ≤ s → s ≤ 3 →
      (c6rep ++ [13, 10, 13, 10, 13, 10]).drop
        ((c6rep ++ [13, 10, 13, 10, 13, 10]).length - s)
        = [13, 10, 13, 10, 13, 10].drop (6 - s) := by
    intro s h1 h3
    rw [c6_acc3_length]
    rw [c6_drop_rep _ _ (by omega)]
    congr 1
    omega
  have hfalse : ∀ s : Nat, 1 ≤ s → s ≤ 3 →
      splitSubcheck s (c6rep ++ [13, 10, 13, 10, 13, 10]) [66, 66] = false := by
    intro s h1 h3
    rw [Bool.eq_false_iff]
    intro hsc
    obtain ⟨-, heq⟩ := (splitSubcheck_eq_true_iff _ _ _).mp hsc
    rw [hd s h1 h3] at heq
    interval_cases s <;> exact absurd heq (by decide)
  unfold headerEndSplit
  rw [hfalse 3 (by omega) (by omega), hfalse 2 (by omega) (by omega),
    hfalse 1 (by omega) (by omega)]
  simp

theorem c6_step2 : rhStep c6chunk1 c6chunk2 = (.tooLarge, 1025) := by
  rw [rhStep]
  have hl : c6chunk2.length = 5 := rfl
  rw [hl]
  rw [rhStepF_of_split 5 _ _ 1 (by omega) (by decide) c6_hes2]
  rw [show c6chunk2.take 1 = [10] from rfl,
    show c6chunk2.drop 1 = [13, 10, 66, 66] from rfl]
  rw [c6_acc2_eq]
  rw [show (5 : Nat) - 1 = 4 from rfl]
  rw [rhStepF_of_split 4 _ _ 2 (by omega) c6_find2 c6_hes3]
  rw [show ([13, 10, 66, 66] : List Nat).take 2 = [13, 10] from rfl,
    show ([13, 10, 66, 66] : List Nat).drop 2 = [66, 66] from rfl]
  rw [c6_acc3_eq]
  rw [show (4 : Nat) - 1 = 3 from rfl]
  have hbig : MAX_BUF_LEN <
      (c6rep ++ [13, 10, 13, 10, 13, 10]).length + ([66, 66] : List Nat).length := by
    rw [c6_acc3_length]
    simp [MAX_BUF_LEN]
  rw [rhStepF_of_none_none _ _ _ c6_find3 c6_hes4, if_pos hbig]
  rw [c6_acc2_length, c6_acc3_length]
  rfl

/-- C6 counterexample: the claim states the header accumulator never
exceeds the 1024-byte ceiling.  On the chunk stream
`[1019 filler bytes ++ "\r\n\r", "\n\r\nBB"]` the terminator-overlap
(`header_end_split`) branch — which performs no size check — extends the
accumulator first to 1023 and then to 1025 bytes during the search
before the size check finally fails:  the run errors with
`HeadersTooLarge`, but the accumulator reached 1025 > 1024 bytes. -/
theorem c6_accumulator_exceeds_ceiling_counterexample :
    readHeadersTrace [] [c6chunk1, c6chunk2] = (.tooLarge, 1025)
    ∧ 1024 < 1025 := by
  constructor
  · rw [readHeadersTrace]
    simp only [c6_step1]
    rw [readHeadersTrace]
    simp only [c6_step2]
    rfl
  · decide

/-- C6 (amended): while searching for the double-CRLF terminator, if a
chunk contains no part of the terminator search success — i.e. the
terminator does not occur in the chunk — and the accumulator length plus
the chunk length exceed 1024, then processing that chunk fails with the
`HeadersTooLarge` error (possibly after up to two terminator-overlap
split steps that first append up to 3 bytes without a size check);
consequently the accumulator never exceeds 1027 = 1024 + 3 bytes during
the terminator search (it can exceed the 1024-byte ceiling by up to 3
bytes, and is additionally extended transiently with the final header
bytes, immediately parsed and cleared, when the terminator is found). -/
theorem c6_headers_too_large_and_accumulator_bound :
    (∀ acc c : List Nat, ¬ CRLF2 <:+: c →
        1024 < acc.length + c.length → (rhStep acc c).1 = .tooLarge)
    ∧ ∀ chunks : List (List Nat), (readHeadersTrace [] chunks).2 ≤ 1027 := by
  constructor
  · intro acc c hni hbig
    exact rhStepF_tooLarge c.length acc c le_rfl
      ((findBytes_eq_none_iff CRLF2 c).mpr hni)
      (by simpa [MAX_BUF_LEN] using hbig)
  · intro chunks
    exact readHeadersTrace_bound chunks [] (by simp)

/-- C6 (amended) witness: a 1023-byte accumulator plus a 2-byte chunk
without terminator overlap fails with `HeadersTooLarge`. -/
theorem c6_headers_too_large_and_accumulator_bound_witness :
    (rhStep (List.replicate 1023 97) [98, 98]).1 = .tooLarge :=
  c6_headers_too_large_and_accumulator_bound.1 (List.replicate 1023 97)
    [98, 98] (by decide) (by simp)

/-!
## `parse_headers` (`src/server/field/headers.rs`) and its model of the
external `httparse` crate
-/

/-- httparse's header-name token table (`is_header_name_token`):
digits, letters, and `!#$%&'*+-.^_|~` and the backquote. -/
def isHeaderNameByte (b : Nat) : Bool :=
  (0x30 ≤ b ∧ b ≤ 0x39) ∨ (0x41 ≤ b ∧ b ≤ 0x5A) ∨ (0x61 ≤ b ∧ b ≤ 0x7A)
  ∨ b = 33 ∨ b = 35 ∨ b = 36 ∨ b = 37 ∨ b = 38 ∨ b = 39 ∨ b = 42 ∨ b = 43
  ∨ b = 45 ∨ b = 46 ∨ b = 94 ∨ b = 95 ∨ b = 96 ∨ b = 124 ∨ b = 126

/-- httparse's header-value byte check (`is_header_value_token`):
horizontal tab or any byte from 0x20 on except DEL (0x7F); bytes above
0x7F (obs-text) are allowed. -/
def isHeaderValueByte (b : Nat) : Bool :=
  b = 9 ∨ (32 ≤ b ∧ b ≠ 127 ∧ b ≤ 255)

/-- Trailing space/tab trim httparse applies to header values. -/
def trimRightWs (l : List Nat) : List Nat :=
  (l.reverse.dropWhile (fun b => b = 32 ∨ b = 9)).reverse

/-- Result of the modelled `httparse::parse_headers`. -/
inductive HPOut where
  | complete (headers : List (List Nat × List Nat))
  | incomplete
  | tooManyHeaders
  | headerError
  | fuelOut
deriving Repr, DecidableEq

/-- Model of the external `httparse` crate's `parse_headers` loop over a
byte buffer with a fixed-capacity header array (`slots` free slots):
an empty line (bare LF or CRLF) completes; otherwise a header line
`name: value` terminated by (CR)LF is parsed (token-validated name, a
`:`, optional leading spaces/tabs, byte-validated value) and stored,
returning `Err(TooManyHeaders)` when the header array is full.  A CR not
followed by LF, an invalid name/value byte, or a missing colon are parse
errors; running out of input is `Status::Partial`.  The fuel decreases
once per stored header; the wrapper supplies the buffer length, which is
always sufficient. -/
def hpParse : Nat → List Nat → Nat → List (List Nat × List Nat) → HPOut
  | _, [], _, _ => .incomplete
  | 0, b :: rest, _, parsed =>
    if b = 10 then .complete parsed.reverse
    else if b = 13 then
      match rest with
      | 10 :: _ => .complete parsed.reverse
      | [] => .incomplete
      | _ => .headerError
    else if ¬ isHeaderNameByte b then .headerError
    else .fuelOut
  | fuel + 1, b :: rest, slots, parsed =>
    if b = 10 then .complete parsed.reverse
    else if b = 13 then
      match rest with
      | 10 :: _ => .complete parsed.reverse
      | [] => .incomplete
      | _ => .headerError
    else if ¬ isHeaderNameByte b then .headerError
    else
      let name := (b :: rest).takeWhile isHeaderNameByte
      match (b :: rest).drop name.length with
      | 58 :: rest1 =>
        let rest2 := rest1.dropWhile (fun x => x = 32 ∨ x = 9)
        let value := rest2.takeWhile (fun x => ¬ (x = 13 ∨ x = 10))
        if ¬ value.all isHeaderValueByte then .headerError
        else
          match rest2.drop value.length with
          | 13 :: 10 :: rest3 =>
            (match slots with
             | 0 => .tooManyHeaders
             | slots + 1 =>
               hpParse fuel rest3 slots ((name, trimRightWs value) :: parsed))
          | 10 :: rest3 =>
            (match slots with
             | 0 => .tooManyHeaders
             | slots + 1 =>
               hpParse fuel rest3 slots ((name, trimRightWs value) :: parsed))
          | _ => .incomplete
      | _ => .headerError

/-- `httparse::parse_headers(bytes, &mut [EMPTY_HEADER; maxHeaders])`. -/
def httparseParseHeaders (bytes : List Nat) (maxHeaders : Nat) : HPOut :=
  hpParse bytes.length bytes maxHeaders []

/-- ASCII whitespace bytes recognised by `str::trim`. -/
def isWsByte (b : Nat) : Bool := b = 9 ∨ b = 10 ∨ b = 13 ∨ b = 32

/-- `str::trim` on bytes. -/
def trimBytes (l : List Nat) : List Nat :=
  ((l.dropWhile isWsByte).reverse.dropWhile isWsByte).reverse

/-- `str::trim_matches(&[' ', ';'])` on bytes. -/
def trimSpaceSemi (l : List Nat) : List Nat :=
  ((l.dropWhile (fun b => b = 32 ∨ b = 59)).reverse.dropWhile
    (fun b => b = 32 ∨ b = 59)).reverse

/-- ASCII-lowercase a byte. -/
def toLowerByte (b : Nat) : Nat := if 65 ≤ b ∧ b ≤ 90 then b + 32 else b

/-- `str::eq_ignore_ascii_case` on bytes. -/
def eqIgnoreAsciiCase (a b : List Nat) : Bool :=
  a.map toLowerByte = b.map toLowerByte

/-- Split a byte string at the first occurrence of the byte `d`
(`str::splitn(2, d)`):  the part before, and `some` rest after the
delimiter when it occurs. -/
def splitFirst : List Nat → Nat → List Nat × Option (List Nat)
  | [], _ => ([], none)
  | b :: t, d =>
    if b = d then ([], some t)
    else
      let r := splitFirst t d
      (b :: r.1, r.2)

/-- Split at the first occurrence of either byte in `ds`
(`str::splitn(2, &['"', ';'][..])`). -/
def splitFirstMem : List Nat → List Nat → List Nat × Option (List Nat)
  | [], _ => ([], none)
  | b :: t, ds =>
    if b ∈ ds then ([], some t)
    else
      let r := splitFirstMem t ds
      (b :: r.1, r.2)

/-- `param_name(input)` from `src/server/field/headers.rs`:  strip
leading spaces/semicolons, split at the first `=`, trim the name. -/
def paramName (input : List Nat) : List Nat × List Nat :=
  let stripped := input.dropWhile (fun b => b = 32 ∨ b = 59)
  let r := splitFirst stripped 61
  (trimBytes r.1, r.2.getD [])

/-- `param_val(input)` from `src/server/field/headers.rs`:  the value up
to the first `"` or `;` if non-empty; otherwise the quoted string up to
the closing `"` (an unterminated quote only logs a warning and yields an
empty remainder). -/
def paramVal (input : List Nat) : List Nat × List Nat :=
  let tk := splitFirstMem input [34, 59]
  let token := trimBytes tk.1
  if token ≠ [] then
    (token, trimSpaceSemi (tk.2.getD []))
  else
    let qt := splitFirst (tk.2.getD []) 34
    (trimBytes qt.1, trimSpaceSemi (qt.2.getD []))

/-- `parse_keyval(input)` from `src/server/field/headers.rs`. -/
def parseKeyval (input : List Nat) : Option (List Nat × List Nat × List Nat) :=
  if trimBytes input = [] then none
  else
    let pn := paramName input
    let pv := paramVal pn.2
    some (pn.1, pv.1, pv.2)

/-- `FieldHeaders` from `src/server/field/headers.rs` (byte-level:
`name`, optional `filename`, optional `content_type` kept as the raw
MIME text, and the `ext` header map in insertion order). -/
structure FieldHeaders where
  name : List Nat
  filename : Option (List Nat)
  content_type : Option (List Nat)
  ext : List (List Nat × List Nat)
deriving Repr, DecidableEq

/-- The error exits of `parse_headers` and its helpers
(`src/server/field/headers.rs`), each tagging one `ret_err!`/`error`
site. -/
inductive PHErr where
  /-- `Status::Partial`: "field headers incomplete". -/
  | headersIncomplete
  /-- `Err(e)` from httparse: "error parsing headers". -/
  | httparse (e : HPOut)
  /-- "duplicate Content-Disposition header on field". -/
  | dupContentDisposition (name : List Nat)
  /-- Content-Disposition value not UTF-8. -/
  | nonUtf8ContentDisposition
  /-- "unexpected/unsupported field header Content-Disposition". -/
  | badContentDisposition
  /-- "expected name parameter in Content-Disposition". -/
  | missingName
  /-- Content-Type value not UTF-8. -/
  | nonUtf8ContentType
  /-- "could not parse MIME type". -/
  | badMime
  /-- "duplicate Content-Type header in field". -/
  | dupContentType (name : List Nat)
  /-- `HeaderName::from_bytes` failed on an extension header. -/
  | badExtHeaderName
  /-- `HeaderValue::from_bytes` failed on an extension header. -/
  | badExtHeaderValue
  /-- "missing Content-Disposition header on a field". -/
  | missingContentDisposition (filename content_type : Option (List Nat))
deriving Repr, DecidableEq

/-- `"Content-Disposition"` as bytes. -/
def contDispBytes : List Nat :=
  [67, 111, 110, 116, 101, 110, 116, 45, 68, 105, 115, 112, 111, 115,
   105, 116, 105, 111, 110]

/-- `"Content-Type"` as bytes. -/
def contTypeBytes : List Nat :=
  [67, 111, 110, 116, 101, 110, 116, 45, 84, 121, 112, 101]

/-- `"form-data"` as bytes. -/
def formDataBytes : List Nat := [102, 111, 114, 109, 45, 100, 97, 116, 97]

/-- `"name"` as bytes. -/
def nameKeyBytes : List Nat := [110, 97, 109, 101]

/-- `"filename"` as bytes. -/
def filenameKeyBytes : List Nat :=
  [102, 105, 108, 101, 110, 97, 109, 101]

/-- Coarse model of the external `mime` crate's `str::parse::<Mime>()`:
a non-empty type, a `/`, and a non-empty remainder.  (No claim depends
on the MIME grammar's finer points.) -/
def parseMime (l : List Nat) : Option (List Nat) :=
  match splitFirst l 47 with
  | (ty, some rest) => if ty ≠ [] ∧ rest ≠ [] then some l else none
  | _ => none

/-- Model of `http::HeaderName::from_bytes`:  non-empty header-token
bytes. -/
def validHeaderName (l : List Nat) : Bool :=
  l ≠ [] ∧ l.all isHeaderNameByte

/-- Model of `http::HeaderValue::from_bytes`:  every byte visible ASCII,
space, tab or obs-text. -/
def validHeaderValue (l : List Nat) : Bool :=
  l.all isHeaderValueByte

/-- The key/value `while let` loop of `parse_cont_disp_val`
(`src/server/field/headers.rs`):  repeatedly `parse_keyval`, storing the
`name` and `filename` keys.  Fuelled by the remaining input length plus
one (each iteration consumes input, so this suffices). -/
def contDispLoop : Nat → List Nat → FieldHeaders → FieldHeaders
  | 0, _, out => out
  | fuel + 1, rem, out =>
    match parseKeyval rem with
    | none => out
    | some (k, v, rest) =>
      let out' :=
        if k = nameKeyBytes then { out with name := v }
        else if k = filenameKeyBytes then { out with filename := some v }
        else out
      contDispLoop fuel rest out'

/-- `parse_cont_disp_val(val, out)` from
`src/server/field/headers.rs`:  the first `;`-section must equal
`form-data` (ASCII case-insensitive); the remaining `key = value`
parameters are scanned for `name` and `filename`; a missing `name` is an
error. -/
def parseContDispVal (val : List Nat) (out : FieldHeaders) :
    Except PHErr FieldHeaders :=
  let secs := splitFirst val 59
  if ¬ eqIgnoreAsciiCase (trimBytes secs.1) formDataBytes then
    .error .badContentDisposition
  else
    let rem := secs.2.getD []
    let out' := contDispLoop (rem.length + 1) rem out
    if out'.name = [] then .error .missingName else .ok out'

/-- The per-header classification loop of `parse_headers`
(`src/server/field/headers.rs`):  `Content-Disposition` (at most once,
UTF-8, `form-data`), `Content-Type` (duplicates only flagged, reported
after the loop), all else into `ext`.  Note the Rust code passes the
WHOLE header buffer `bytes` — not `header.value` — to
`HeaderValue::from_bytes` for extension headers. -/
def procHeaders (bytes : List Nat) :
    List (List Nat × List Nat) → FieldHeaders → Bool →
    Except PHErr (FieldHeaders × Bool)
  | [], out, dupCT => .ok (out, dupCT)
  | (hname, hval) :: rest, out, dupCT =>
    if eqIgnoreAsciiCase contDispBytes hname then
      if out.name ≠ [] then .error (.dupContentDisposition out.name)
      else if utf8Validate hval ≠ .ok then .error .nonUtf8ContentDisposition
      else
        match parseContDispVal (trimBytes hval) out with
        | .error e => .error e
        | .ok out' => procHeaders bytes rest out' dupCT
    else if eqIgnoreAsciiCase contTypeBytes hname then
      if out.content_type.isSome then procHeaders bytes rest out true
      else if utf8Validate hval ≠ .ok then .error .nonUtf8ContentType
      else
        match parseMime (trimBytes hval) with
        | none => .error .badMime
        | some m => procHeaders bytes rest { out with content_type := some m } dupCT
    else
      if ¬ validHeaderName hname then .error .badExtHeaderName
      else if ¬ validHeaderValue bytes then .error .badExtHeaderValue
      else procHeaders bytes rest { out with ext := out.ext ++ [(hname, bytes)] } dupCT

/-- `parse_headers(bytes)` from `src/server/field/headers.rs`:  run the
(modelled) `httparse::parse_headers` with `MAX_HEADERS = 4` slots, then
classify the parsed headers, then check the `name` and duplicate
`Content-Type` post-conditions. -/
def parseHeaders (bytes : List Nat) : Except PHErr FieldHeaders :=
  match httparseParseHeaders bytes MAX_HEADERS with
  | .incomplete => .error .headersIncomplete
  | .tooManyHeaders => .error (.httparse .tooManyHeaders)
  | .headerError => .error (.httparse .headerError)
  | .fuelOut => .error (.httparse .fuelOut)
  | .complete headers =>
    match procHeaders bytes headers ⟨[], none, none, []⟩ false with
    | .error e => .error e
    | .ok (out, dupCT) =>
      if out.name = [] then
        .error (.missingContentDisposition out.filename out.content_type)
      else if dupCT then .error (.dupContentType out.name)
      else .ok out

/-- One rendered header line `name: value\r\n`. -/
def renderHeader (p : List Nat × List Nat) : List Nat :=
  p.1 ++ [58, 32] ++ p.2 ++ [13, 10]

/-- A rendered header section:  header lines followed by the empty line
of the `\r\n\r\n` terminator. -/
def renderHeaderSection (hs : List (List Nat × List Nat)) : List Nat :=
  (hs.map renderHeader).flatten ++ [13, 10]

/-- A well-formed header pair:  non-empty token name, byte-valid value. -/
def ValidHeaderPair (p : List Nat × List Nat) : Prop :=
  p.1 ≠ [] ∧ p.1.all isHeaderNameByte = true ∧ p.2.all isHeaderValueByte = true

instance (p : List Nat × List Nat) : Decidable (ValidHeaderPair p) := by
  unfold ValidHeaderPair
  infer_instance

/-!
## C10: more than `MAX_HEADERS` header lines make `parse_headers` fail
-/

/-- `takeWhile` runs through an all-satisfying prefix and stops at the
first failing byte. -/
theorem takeWhile_cons_append (f : Nat → Bool) (b : Nat) (l : List Nat)
    (c : Nat) (x : List Nat) (hb : f b = true) (hl : l.all f = true)
    (hc : f c = false) :
    (b :: (l ++ c :: x)).takeWhile f = b :: l := by
  induction l generalizing b with
  | nil => simp [List.takeWhile_cons, hb, hc]
  | cons a t ih =>
    simp only [List.all_cons, Bool.and_eq_true] at hl
    simp only [List.cons_append, List.takeWhile_cons, hb, if_true]
    have := ih a hl.1 hl.2
    simpa [List.takeWhile_cons, hl.1] using this

/-- `dropWhile` distributes over an append whose right part starts with
a failing byte. -/
theorem dropWhile_append_cons (f : Nat → Bool) (l : List Nat) (c : Nat)
    (x : List Nat) (hc : f c = false) :
    (l ++ c :: x).dropWhile f = l.dropWhile f ++ c :: x := by
  induction l with
  | nil => simp [List.dropWhile_cons, hc]
  | cons a t ih =>
    by_cases ha : f a = true
    · simp [List.dropWhile_cons, ha, ih]
    · simp [List.dropWhile_cons, ha]

/-- Dropping a prefix preserves `all`. -/
theorem all_dropWhile (f g : Nat → Bool) (l : List Nat)
    (h : l.all f = true) : (l.dropWhile g).all f = true := by
  simp only [List.all_eq_true] at h ⊢
  intro b hb
  exact h b ((List.dropWhile_suffix g).subset hb)

/-- Pointwise strengthening of `all`. -/
theorem all_imp (f g : Nat → Bool) (h : ∀ b, f b = true → g b = true)
    (l : List Nat) (hl : l.all f = true) : l.all g = true := by
  simp only [List.all_eq_true] at hl ⊢
  intro b hb
  exact h b (hl b hb)

/-- A header-name token byte is not LF, CR or the colon. -/
theorem nameByte_props (b : Nat) (h : isHeaderNameByte b = true) :
    b ≠ 10 ∧ b ≠ 13 ∧ b ≠ 58 := by
  simp only [isHeaderNameByte, decide_eq_true_eq] at h
  omega

/-- A header-value byte is neither CR nor LF. -/
theorem valueByte_not_crlf (b : Nat) (h : isHeaderValueByte b = true) :
    (decide ¬ (b = 13 ∨ b = 10)) = true := by
  simp only [isHeaderValueByte, decide_eq_true_eq] at h ⊢
  omega

/-- Parsing one well-formed rendered header line with a free slot stores
it and recurses on the rest with one slot and one unit of fuel fewer. -/
theorem hpParse_render_succ (fuel slots : Nat)
    (parsed : List (List Nat × List Nat)) (n v rest : List Nat)
    (h1 : n ≠ []) (h2 : n.all isHeaderNameByte = true)
    (h3 : v.all isHeaderValueByte = true) :
    hpParse (fuel + 1) (renderHeader (n, v) ++ rest) (slots + 1) parsed
      = hpParse fuel rest slots
          ((n, trimRightWs (v.dropWhile (fun x => x = 32 ∨ x = 9))) :: parsed) := by
  obtain ⟨b, nt, rfl⟩ : ∃ b nt, n = b :: nt := by
    cases n with
    | nil => exact absurd rfl h1
    | cons b nt => exact ⟨b, nt, rfl⟩
  simp only [List.all_cons, Bool.and_eq_true] at h2
  obtain ⟨hb, hnt⟩ := h2
  obtain ⟨hb10, hb13, -⟩ := nameByte_props b hb
  have hbytes : renderHeader (b :: nt, v) ++ rest
      = b :: (nt ++ 58 :: 32 :: (v ++ 13 :: 10 :: rest)) := by
    simp [renderHeader]
  rw [hbytes]
  have hname : (b :: (nt ++ 58 :: 32 :: (v ++ 13 :: 10 :: rest))).takeWhile
      isHeaderNameByte = b :: nt :=
    takeWhile_cons_append _ _ _ _ _ hb hnt (by decide)
  have hdrop : (b :: (nt ++ 58 :: 32 :: (v ++ 13 :: 10 :: rest))).drop
      (b :: nt).length = 58 :: 32 :: (v ++ 13 :: 10 :: rest) := by
    simp only [List.length_cons, List.drop_succ_cons, List.drop_left]
  have hws : ((32 : Nat) :: (v ++ 13 :: 10 :: rest)).dropWhile
      (fun x => x = 32 ∨ x = 9)
      = v.dropWhile (fun x => x = 32 ∨ x = 9) ++ 13 :: 10 :: rest := by
    rw [List.dropWhile_cons_of_pos (by decide)]
    exact dropWhile_append_cons _ _ _ _ (by decide)
  have hvall : (v.dropWhile (fun x => x = 32 ∨ x = 9)).all
      isHeaderValueByte = true := all_dropWhile _ _ _ h3
  have hvnc : (v.dropWhile (fun x => x = 32 ∨ x = 9)).all
      (fun x => decide ¬ (x = 13 ∨ x = 10)) = true :=
    all_imp _ _ valueByte_not_crlf _ hvall
  have hval : ((v.dropWhile (fun x => x = 32 ∨ x = 9))
        ++ 13 :: 10 :: rest).takeWhile (fun x => ¬ (x = 13 ∨ x = 10))
      = v.dropWhile (fun x => x = 32 ∨ x = 9) := by
    cases hv : v.dropWhile (fun x => x = 32 ∨ x = 9) with
    | nil => simp [List.takeWhile_cons]
    | cons a t =>
      rw [hv] at hvnc
      simp only [List.all_cons, Bool.and_eq_true] at hvnc
      exact takeWhile_cons_append _ _ _ _ _ hvnc.1 hvnc.2 (by decide)
  simp only [hpParse, if_neg hb10, if_neg hb13, if_neg (not_not_intro hb),
    hname, hdrop, hws, hval, if_neg (not_not_intro hvall), List.drop_left]

/-- Parsing one well-formed rendered header line with no free slot left
returns `TooManyHeaders`. -/
theorem hpParse_render_zero (fuel : Nat)
    (parsed : List (List Nat × List Nat)) (n v rest : List Nat)
    (h1 : n ≠ []) (h2 : n.all isHeaderNameByte = true)
    (h3 : v.all isHeaderValueByte = true) :
    hpParse (fuel + 1) (renderHeader (n, v) ++ rest) 0 parsed
      = .tooManyHeaders := by
  obtain ⟨b, nt, rfl⟩ : ∃ b nt, n = b :: nt := by
    cases n with
    | nil => exact absurd rfl h1
    | cons b nt => exact ⟨b, nt, rfl⟩
  simp only [List.all_cons, Bool.and_eq_true] at h2
  obtain ⟨hb, hnt⟩ := h2
  obtain ⟨hb10, hb13, -⟩ := nameByte_props b hb
  have hbytes : renderHeader (b :: nt, v) ++ rest
      = b :: (nt ++ 58 :: 32 :: (v ++ 13 :: 10 :: rest)) := by
    simp [renderHeader]
  rw [hbytes]
  have hname : (b :: (nt ++ 58 :: 32 :: (v ++ 13 :: 10 :: rest))).takeWhile
      isHeaderNameByte = b :: nt :=
    takeWhile_cons_append _ _ _ _ _ hb hnt (by decide)
  have hdrop : (b :: (nt ++ 58 :: 32 :: (v ++ 13 :: 10 :: rest))).drop
      (b :: nt).length = 58 :: 32 :: (v ++ 13 :: 10 :: rest) := by
    simp only [List.length_cons, List.drop_succ_cons, List.drop_left]
  have hws : ((32 : Nat) :: (v ++ 13 :: 10 :: rest)).dropWhile
      (fun x => x = 32 ∨ x = 9)
      = v.dropWhile (fun x => x = 32 ∨ x = 9) ++ 13 :: 10 :: rest := by
    rw [List.dropWhile_cons_of_pos (by decide)]
    exact dropWhile_append_cons _ _ _ _ (by decide)
  have hvall : (v.dropWhile (fun x => x = 32 ∨ x = 9)).all
      isHeaderValueByte = true := all_dropWhile _ _ _ h3
  have hvnc : (v.dropWhile (fun x => x = 32 ∨ x = 9)).all
      (fun x => decide ¬ (x = 13 ∨ x = 10)) = true :=
    all_imp _ _ valueByte_not_crlf _ hvall
  have hval : ((v.dropWhile (fun x => x = 32 ∨ x = 9))
        ++ 13 :: 10 :: rest).takeWhile (fun x => ¬ (x = 13 ∨ x = 10))
      = v.dropWhile (fun x => x = 32 ∨ x = 9) := by
    cases hv : v.dropWhile (fun x => x = 32 ∨ x = 9) with
    | nil => simp [List.takeWhile_cons]
    | cons a t =>
      rw [hv] at hvnc
      simp only [List.all_cons, Bool.and_eq_true] at hvnc
      exact takeWhile_cons_append _ _ _ _ _ hvnc.1 hvnc.2 (by decide)
  simp only [hpParse, if_neg hb10, if_neg hb13, if_neg (not_not_intro hb),
    hname, hdrop, hws, hval, if_neg (not_not_intro hvall), List.drop_left]

/-- With fewer free slots than well-formed header lines and enough fuel,
the modelled httparse loop returns `TooManyHeaders`. -/
theorem hpParse_renderSection_tooMany :
    ∀ (hs : List (List Nat × List Nat)) (slots parsed fuel : _),
    (∀ p ∈ hs, ValidHeaderPair p) → slots < hs.length → hs.length ≤ fuel →
    hpParse fuel (renderHeaderSection hs) slots parsed = .tooManyHeaders := by
  intro hs
  induction hs with
  | nil => intro slots parsed fuel _ hlt _; simp at hlt
  | cons p t ih =>
    intro slots parsed fuel hv hlt hfuel
    obtain ⟨n, v⟩ := p
    obtain ⟨h1, h2, h3⟩ := hv (n, v) (List.mem_cons_self _ _)
    cases fuel with
    | zero => simp at hfuel
    | succ fuel =>
      have hsec : renderHeaderSection ((n, v) :: t)
          = renderHeader (n, v) ++ renderHeaderSection t := by
        simp [renderHeaderSection, List.map_cons, List.flatten_cons,
          List.append_assoc]
      rw [hsec]
      cases slots with
      | zero => exact hpParse_render_zero fuel parsed n v _ h1 h2 h3
      | succ slots =>
        rw [hpParse_render_succ fuel slots parsed n v _ h1 h2 h3]
        exact ih slots _ fuel (fun q hq => hv q (List.mem_cons_of_mem _ hq))
          (by simpa using hlt) (by simpa using hfuel)

/-- The rendered section is at least as long as the header count (each
line holds at least four bytes). -/
theorem renderHeaderSection_length_ge (hs : List (List Nat × List Nat)) :
    hs.length ≤ (renderHeaderSection hs).length := by
  induction hs with
  | nil => simp [renderHeaderSection]
  | cons p t ih =>
    have hsec : renderHeaderSection (p :: t)
        = renderHeader p ++ renderHeaderSection t := by
      simp [renderHeaderSection, List.map_cons, List.flatten_cons,
        List.append_assoc]
    rw [hsec]
    simp only [List.length_cons, List.length_append, renderHeader]
    omega

/-- C10: Header parsing admits at most `MAX_HEADERS = 4` header lines
per field:  for any rendered header section holding more than 4
well-formed headers, `parse_headers` returns the httparse
`TooManyHeaders` error ("error parsing headers") instead of storing the
extra headers in `ext_headers`. -/
theorem c10_more_than_max_headers_is_error
    (hs : List (List Nat × List Nat))
    (hv : ∀ p ∈ hs, ValidHeaderPair p) (hn : MAX_HEADERS < hs.length) :
    parseHeaders (renderHeaderSection hs)
      = .error (.httparse .tooManyHeaders) := by
  have h := hpParse_renderSection_tooMany hs MAX_HEADERS []
    (renderHeaderSection hs).length hv hn
    (renderHeaderSection_length_ge hs)
  simp [parseHeaders, httparseParseHeaders, h]

/-- C10 witness: a section of five one-byte headers `A: 1` … `E: 1`
satisfies the hypotheses and is rejected with `TooManyHeaders`. -/
theorem c10_more_than_max_headers_is_error_witness :
    (∀ p ∈ ([([65], [49]), ([66], [49]), ([67], [49]), ([68], [49]),
        ([69], [49])] : List (List Nat × List Nat)), ValidHeaderPair p)
    ∧ MAX_HEADERS
        < ([([65], [49]), ([66], [49]), ([67], [49]), ([68], [49]),
            ([69], [49])] : List (List Nat × List Nat)).length
    ∧ parseHeaders (renderHeaderSection
        [([65], [49]), ([66], [49]), ([67], [49]), ([68], [49]),
         ([69], [49])])
      = .error (.httparse .tooManyHeaders) :=
  ⟨by decide, by decide,
    c10_more_than_max_headers_is_error _ (by decide) (by decide)⟩

/-!
## C7: `ReadToString` UTF-8 stitching
-/

/-- The shape every held surrogate has:  empty, or starting with a
multi-byte lead and strictly shorter than that lead's sequence width.
(The cross-chunk extension path does not range-check the bytes it
retains, so the surrogate need not be valid UTF-8.) -/
def SurrShape : List Nat → Prop
  | [] => True
  | b :: t => ∃ w, utf8CharWidth b = some w ∧ (b :: t).length < w

theorem VRes.shift_shift (r : VRes) (a b : Nat) :
    (r.shift a).shift b = r.shift (a + b) := by
  cases r <;> simp [VRes.shift] <;> omega

theorem VRes.shift_eq_ok {r : VRes} {k : Nat} :
    r.shift k = .ok ↔ r = .ok := by
  cases r <;> simp [VRes.shift]

theorem VRes.shift_eq_soft {r : VRes} {k m : Nat} :
    r.shift k = .soft m ↔ ∃ u, r = .soft u ∧ m = u + k := by
  cases r <;> simp [VRes.shift] <;> omega

theorem VRes.shift_eq_hard {r : VRes} {k m : Nat} :
    r.shift k = .hard m ↔ ∃ u, r = .hard u ∧ m = u + k := by
  cases r <;> simp [VRes.shift] <;> omega

theorem utf8CharWidth_bounds {b w : Nat} (h : utf8CharWidth b = some w) :
    1 ≤ w ∧ w ≤ 4 := by
  unfold utf8CharWidth at h
  split_ifs at h <;> injection h with h2 <;> omega

theorem SurrShape_length_le {s : List Nat} (h : SurrShape s) : s.length ≤ 3 := by
  cases s with
  | nil => simp
  | cons b t =>
    obtain ⟨w, hw, hlen⟩ := h
    have := utf8CharWidth_bounds hw
    simp only [List.length_cons] at hlen ⊢
    omega

/-!
### Branch equations of `utf8Validate`
-/

theorem utf8Validate_ascii {b : Nat} (l : List Nat) (hb : b ≤ 0x7F) :
    utf8Validate (b :: l) = (utf8Validate l).shift 1 := by
  rw [utf8Validate.eq_def]; simp [hb]

theorem utf8Validate_two_nil {b : Nat} (h1 : ¬ b ≤ 0x7F)
    (h2 : 0xC2 ≤ b ∧ b ≤ 0xDF) : utf8Validate [b] = .soft 0 := by
  rw [utf8Validate.eq_def]; simp [h1, h2]

theorem utf8Validate_two_cons {b c : Nat} (l : List Nat) (h1 : ¬ b ≤ 0x7F)
    (h2 : 0xC2 ≤ b ∧ b ≤ 0xDF) (hc : contOk c = true) :
    utf8Validate (b :: c :: l) = (utf8Validate l).shift 2 := by
  rw [utf8Validate.eq_def]; simp [h1, h2, hc]

theorem utf8Validate_two_bad {b c : Nat} (l : List Nat) (h1 : ¬ b ≤ 0x7F)
    (h2 : 0xC2 ≤ b ∧ b ≤ 0xDF) (hc : ¬ contOk c = true) :
    utf8Validate (b :: c :: l) = .hard 0 := by
  rw [utf8Validate.eq_def]; simp [h1, h2, hc]

theorem utf8Validate_three_nil {b : Nat} (h1 : ¬ b ≤ 0x7F)
    (h2 : ¬ (0xC2 ≤ b ∧ b ≤ 0xDF)) (h3 : 0xE0 ≤ b ∧ b ≤ 0xEF) :
    utf8Validate [b] = .soft 0 := by
  rw [utf8Validate.eq_def]; simp [h1, h2, h3]

theorem utf8Validate_three_one {b c : Nat} (h1 : ¬ b ≤ 0x7F)
    (h2 : ¬ (0xC2 ≤ b ∧ b ≤ 0xDF)) (h3 : 0xE0 ≤ b ∧ b ≤ 0xEF)
    (hc : snd3Ok b c = true) : utf8Validate [b, c] = .soft 0 := by
  rw [utf8Validate.eq_def]; simp [h1, h2, h3, hc]

theorem utf8Validate_three_cons {b c d : Nat} (l : List Nat)
    (h1 : ¬ b ≤ 0x7F) (h2 : ¬ (0xC2 ≤ b ∧ b ≤ 0xDF))
    (h3 : 0xE0 ≤ b ∧ b ≤ 0xEF) (hc : snd3Ok b c = true)
    (hd : contOk d = true) :
    utf8Validate (b :: c :: d :: l) = (utf8Validate l).shift 3 := by
  rw [utf8Validate.eq_def]; simp [h1, h2, h3, hc, hd]

theorem utf8Validate_three_bad3 {b c d : Nat} (l : List Nat)
    (h1 : ¬ b ≤ 0x7F) (h2 : ¬ (0xC2 ≤ b ∧ b ≤ 0xDF))
    (h3 : 0xE0 ≤ b ∧ b ≤ 0xEF) (hc : snd3Ok b c = true)
    (hd : ¬ contOk d = true) :
    utf8Validate (b :: c :: d :: l) = .hard 0 := by
  rw [utf8Validate.eq_def]; simp [h1, h2, h3, hc, hd]

theorem utf8Validate_three_bad2 {b c : Nat} (l : List Nat)
    (h1 : ¬ b ≤ 0x7F) (h2 : ¬ (0xC2 ≤ b ∧ b ≤ 0xDF))
    (h3 : 0xE0 ≤ b ∧ b ≤ 0xEF) (hc : ¬ snd3Ok b c = true) :
    utf8Validate (b :: c :: l) = .hard 0 := by
  rw [utf8Validate.eq_def]; simp [h1, h2, h3, hc]

theorem utf8Validate_four_nil {b : Nat} (h1 : ¬ b ≤ 0x7F)
    (h2 : ¬ (0xC2 ≤ b ∧ b ≤ 0xDF)) (h3 : ¬ (0xE0 ≤ b ∧ b ≤ 0xEF))
    (h4 : 0xF0 ≤ b ∧ b ≤ 0xF4) : utf8Validate [b] = .soft 0 := by
  rw [utf8Validate.eq_def]; simp [h1, h2, h3, h4]

theorem utf8Validate_four_one {b c : Nat} (h1 : ¬ b ≤ 0x7F)
    (h2 : ¬ (0xC2 ≤ b ∧ b ≤ 0xDF)) (h3 : ¬ (0xE0 ≤ b ∧ b ≤ 0xEF))
    (h4 : 0xF0 ≤ b ∧ b ≤ 0xF4) (hc : snd4Ok b c = true) :
    utf8Validate [b, c] = .soft 0 := by
  rw [utf8Validate.eq_def]; simp [h1, h2, h3, h4, hc]

theorem utf8Validate_four_two {b c d : Nat} (h1 : ¬ b ≤ 0x7F)
    (h2 : ¬ (0xC2 ≤ b ∧ b ≤ 0xDF)) (h3 : ¬ (0xE0 ≤ b ∧ b ≤ 0xEF))
    (h4 : 0xF0 ≤ b ∧ b ≤ 0xF4) (hc : snd4Ok b c = true)
    (hd : contOk d = true) : utf8Validate [b, c, d] = .soft 0 := by
  rw [utf8Validate.eq_def]; simp [h1, h2, h3, h4, hc, hd]

theorem utf8Validate_four_cons {b c d e : Nat} (l : List Nat)
    (h1 : ¬ b ≤ 0x7F) (h2 : ¬ (0xC2 ≤ b ∧ b ≤ 0xDF))
    (h3 : ¬ (0xE0 ≤ b ∧ b ≤ 0xEF)) (h4 : 0xF0 ≤ b ∧ b ≤ 0xF4)
    (hc : snd4Ok b c = true) (hd : contOk d = true) (he : contOk e = true) :
    utf8Validate (b :: c :: d :: e :: l) = (utf8Validate l).shift 4 := by
  rw [utf8Validate.eq_def]; simp [h1, h2, h3, h4, hc, hd, he]

theorem utf8Validate_four_bad4 {b c d e : Nat} (l : List Nat)
    (h1 : ¬ b ≤ 0x7F) (h2 : ¬ (0xC2 ≤ b ∧ b ≤ 0xDF))
    (h3 : ¬ (0xE0 ≤ b ∧ b ≤ 0xEF)) (h4 : 0xF0 ≤ b ∧ b ≤ 0xF4)
    (hc : snd4Ok b c = true) (hd : contOk d = true)
    (he : ¬ contOk e = true) :
    utf8Validate (b :: c :: d :: e :: l) = .hard 0 := by
  rw [utf8Validate.eq_def]; simp [h1, h2, h3, h4, hc, hd, he]

theorem utf8Validate_four_bad3 {b c d : Nat} (l : List Nat)
    (h1 : ¬ b ≤ 0x7F) (h2 : ¬ (0xC2 ≤ b ∧ b ≤ 0xDF))
    (h3 : ¬ (0xE0 ≤ b ∧ b ≤ 0xEF)) (h4 : 0xF0 ≤ b ∧ b ≤ 0xF4)
    (hc : snd4Ok b c = true) (hd : ¬ contOk d = true) :
    utf8Validate (b :: c :: d :: l) = .hard 0 := by
  rw [utf8Validate.eq_def]; simp [h1, h2, h3, h4, hc, hd]

theorem utf8Validate_four_bad2 {b c : Nat} (l : List Nat)
    (h1 : ¬ b ≤ 0x7F) (h2 : ¬ (0xC2 ≤ b ∧ b ≤ 0xDF))
    (h3 : ¬ (0xE0 ≤ b ∧ b ≤ 0xEF)) (h4 : 0xF0 ≤ b ∧ b ≤ 0xF4)
    (hc : ¬ snd4Ok b c = true) :
    utf8Validate (b :: c :: l) = .hard 0 := by
  rw [utf8Validate.eq_def]; simp [h1, h2, h3, h4, hc]

theorem utf8Validate_bad_lead {b : Nat} (l : List Nat) (h1 : ¬ b ≤ 0x7F)
    (h2 : ¬ (0xC2 ≤ b ∧ b ≤ 0xDF)) (h3 : ¬ (0xE0 ≤ b ∧ b ≤ 0xEF))
    (h4 : ¬ (0xF0 ≤ b ∧ b ≤ 0xF4)) :
    utf8Validate (b :: l) = .hard 0 := by
  rw [utf8Validate.eq_def]; simp [h1, h2, h3, h4]

/-!
### Structure lemmas of `utf8Validate`
-/

/-- Appending after a fully valid buffer shifts the validation of the
appended part by the buffer's length. -/
theorem utf8Validate_append_ok :
    ∀ (a : List Nat), utf8Validate a = .ok →
      ∀ bs, utf8Validate (a ++ bs) = (utf8Validate bs).shift a.length := by
  intro a
  induction a using utf8Validate.induct with
  | case1 =>
    intro _ bs
    cases h : utf8Validate bs <;> simp [VRes.shift, h]
  | case2 b l hb ih =>
    intro ha bs
    rw [utf8Validate_ascii l hb, VRes.shift_eq_ok] at ha
    rw [List.cons_append, utf8Validate_ascii _ hb, ih ha bs, VRes.shift_shift]
    simp
  | case3 b h1 h2 =>
    intro ha _
    rw [utf8Validate_two_nil h1 h2] at ha
    exact absurd ha (by simp)
  | case4 b h1 h2 c l2 hc ih =>
    intro ha bs
    rw [utf8Validate_two_cons l2 h1 h2 hc, VRes.shift_eq_ok] at ha
    rw [List.cons_append, List.cons_append, utf8Validate_two_cons _ h1 h2 hc,
      ih ha bs, VRes.shift_shift]
    simp [Nat.add_assoc]
  | case5 b h1 h2 c l2 hc =>
    intro ha _
    rw [utf8Validate_two_bad l2 h1 h2 hc] at ha
    exact absurd ha (by simp)
  | case6 b h1 h2 h3 =>
    intro ha _
    rw [utf8Validate_three_nil h1 h2 h3] at ha
    exact absurd ha (by simp)
  | case7 b h1 h2 h3 c hc =>
    intro ha _
    rw [utf8Validate_three_one h1 h2 h3 hc] at ha
    exact absurd ha (by simp)
  | case8 b h1 h2 h3 c hc d l2 hd ih =>
    intro ha bs
    rw [utf8Validate_three_cons l2 h1 h2 h3 hc hd, VRes.shift_eq_ok] at ha
    rw [List.cons_append, List.cons_append, List.cons_append,
      utf8Validate_three_cons _ h1 h2 h3 hc hd, ih ha bs, VRes.shift_shift]
    simp [Nat.add_assoc]
  | case9 b h1 h2 h3 c hc d l2 hd =>
    intro ha _
    rw [utf8Validate_three_bad3 l2 h1 h2 h3 hc hd] at ha
    exact absurd ha (by simp)
  | case10 b h1 h2 h3 c l2 hc =>
    intro ha _
    rw [utf8Validate_three_bad2 l2 h1 h2 h3 hc] at ha
    exact absurd ha (by simp)
  | case11 b h1 h2 h3 h4 =>
    intro ha _
    rw [utf8Validate_four_nil h1 h2 h3 h4] at ha
    exact absurd ha (by simp)
  | case12 b h1 h2 h3 h4 c hc =>
    intro ha _
    rw [utf8Validate_four_one h1 h2 h3 h4 hc] at ha
    exact absurd ha (by simp)
  | case13 b h1 h2 h3 h4 c hc d hd =>
    intro ha _
    rw [utf8Validate_four_two h1 h2 h3 h4 hc hd] at ha
    exact absurd ha (by simp)
  | case14 b h1 h2 h3 h4 c hc d hd e l2 he ih =>
    intro ha bs
    rw [utf8Validate_four_cons l2 h1 h2 h3 h4 hc hd he, VRes.shift_eq_ok] at ha
    rw [List.cons_append, List.cons_append, List.cons_append, List.cons_append,
      utf8Validate_four_cons _ h1 h2 h3 h4 hc hd he, ih ha bs, VRes.shift_shift]
    simp [Nat.add_assoc]
  | case15 b h1 h2 h3 h4 c hc d hd e l2 he =>
    intro ha _
    rw [utf8Validate_four_bad4 l2 h1 h2 h3 h4 hc hd he] at ha
    exact absurd ha (by simp)
  | case16 b h1 h2 h3 h4 c hc d l2 hd =>
    intro ha _
    rw [utf8Validate_four_bad3 l2 h1 h2 h3 h4 hc hd] at ha
    exact absurd ha (by simp)
  | case17 b h1 h2 h3 h4 c l2 hc =>
    intro ha _
    rw [utf8Validate_four_bad2 l2 h1 h2 h3 h4 hc] at ha
    exact absurd ha (by simp)
  | case18 b l h1 h2 h3 h4 =>
    intro ha _
    rw [utf8Validate_bad_lead l h1 h2 h3 h4] at ha
    exact absurd ha (by simp)

/-- Decomposition of a `soft` (incomplete-tail) validation:  the prefix up
to `validUpTo` is valid, the tail is a short, lead-shaped buffer of one
to three bytes that itself validates `soft 0`. -/
theorem utf8Validate_soft_spec :
    ∀ (a : List Nat) (u : Nat), utf8Validate a = .soft u →
      utf8Validate (a.take u) = .ok ∧ utf8Validate (a.drop u) = .soft 0
      ∧ SurrShape (a.drop u) ∧ u < a.length ∧ a.length ≤ u + 3 := by
  intro a
  induction a using utf8Validate.induct with
  | case1 =>
    intro u ha
    exact absurd ha (by simp [utf8Validate])
  | case2 b l hb ih =>
    intro u ha
    rw [utf8Validate_ascii l hb, VRes.shift_eq_soft] at ha
    obtain ⟨u2, ha2, rfl⟩ := ha
    obtain ⟨g1, g2, g3, g4, g5⟩ := ih u2 ha2
    refine ⟨?_, ?_, ?_, ?_, ?_⟩
    · rw [List.take_succ_cons, utf8Validate_ascii _ hb, g1]
      rfl
    · rw [List.drop_succ_cons]; exact g2
    · rw [List.drop_succ_cons]; exact g3
    · simp only [List.length_cons]; omega
    · simp only [List.length_cons]; omega
  | case3 b h1 h2 =>
    intro u ha
    rw [utf8Validate_two_nil h1 h2] at ha
    obtain rfl : 0 = u := by injection ha
    refine ⟨by simp [utf8Validate], by simpa using utf8Validate_two_nil h1 h2,
      ⟨2, by simp [utf8CharWidth, h1, h2], by simp⟩, by simp, by simp⟩
  | case4 b h1 h2 c l2 hc ih =>
    intro u ha
    rw [utf8Validate_two_cons l2 h1 h2 hc, VRes.shift_eq_soft] at ha
    obtain ⟨u2, ha2, rfl⟩ := ha
    obtain ⟨g1, g2, g3, g4, g5⟩ := ih u2 ha2
    have he2 : u2 + 2 = (u2 + 1) + 1 := rfl
    refine ⟨?_, ?_, ?_, ?_, ?_⟩
    · rw [he2, List.take_succ_cons, List.take_succ_cons,
        utf8Validate_two_cons _ h1 h2 hc, g1]
      rfl
    · rw [he2, List.drop_succ_cons, List.drop_succ_cons]; exact g2
    · rw [he2, List.drop_succ_cons, List.drop_succ_cons]; exact g3
    · simp only [List.length_cons]; omega
    · simp only [List.length_cons]; omega
  | case5 b h1 h2 c l2 hc =>
    intro u ha
    rw [utf8Validate_two_bad l2 h1 h2 hc] at ha
    exact absurd ha (by simp)
  | case6 b h1 h2 h3 =>
    intro u ha
    rw [utf8Validate_three_nil h1 h2 h3] at ha
    obtain rfl : 0 = u := by injection ha
    refine ⟨by simp [utf8Validate], by simpa using utf8Validate_three_nil h1 h2 h3,
      ⟨3, by simp [utf8CharWidth, h1, h2, h3], by simp⟩, by simp, by simp⟩
  | case7 b h1 h2 h3 c hc =>
    intro u ha
    rw [utf8Validate_three_one h1 h2 h3 hc] at ha
    obtain rfl : 0 = u := by injection ha
    refine ⟨by simp [utf8Validate], by simpa using utf8Validate_three_one h1 h2 h3 hc,
      ⟨3, by simp [utf8CharWidth, h1, h2, h3], by simp⟩, by simp, by simp⟩
  | case8 b h1 h2 h3 c hc d l2 hd ih =>
    intro u ha
    rw [utf8Validate_three_cons l2 h1 h2 h3 hc hd, VRes.shift_eq_soft] at ha
    obtain ⟨u2, ha2, rfl⟩ := ha
    obtain ⟨g1, g2, g3, g4, g5⟩ := ih u2 ha2
    have he3 : u2 + 3 = ((u2 + 1) + 1) + 1 := rfl
    refine ⟨?_, ?_, ?_, ?_, ?_⟩
    · rw [he3, List.take_succ_cons, List.take_succ_cons, List.take_succ_cons,
        utf8Validate_three_cons _ h1 h2 h3 hc hd, g1]
      rfl
    · rw [he3, List.drop_succ_cons, List.drop_succ_cons, List.drop_succ_cons]
      exact g2
    · rw [he3, List.drop_succ_cons, List.drop_succ_cons, List.drop_succ_cons]
      exact g3
    · simp only [List.length_cons]; omega
    · simp only [List.length_cons]; omega
  | case9 b h1 h2 h3 c hc d l2 hd =>
    intro u ha
    rw [utf8Validate_three_bad3 l2 h1 h2 h3 hc hd] at ha
    exact absurd ha (by simp)
  | case10 b h1 h2 h3 c l2 hc =>
    intro u ha
    rw [utf8Validate_three_bad2 l2 h1 h2 h3 hc] at ha
    exact absurd ha (by simp)
  | case11 b h1 h2 h3 h4 =>
    intro u ha
    rw [utf8Validate_four_nil h1 h2 h3 h4] at ha
    obtain rfl : 0 = u := by injection ha
    refine ⟨by simp [utf8Validate], by simpa using utf8Validate_four_nil h1 h2 h3 h4,
      ⟨4, by simp [utf8CharWidth, h1, h2, h3, h4], by simp⟩, by simp, by simp⟩
  | case12 b h1 h2 h3 h4 c hc =>
    intro u ha
    rw [utf8Validate_four_one h1 h2 h3 h4 hc] at ha
    obtain rfl : 0 = u := by injection ha
    refine ⟨by simp [utf8Validate], by simpa using utf8Validate_four_one h1 h2 h3 h4 hc,
      ⟨4, by simp [utf8CharWidth, h1, h2, h3, h4], by simp⟩, by simp, by simp⟩
  | case13 b h1 h2 h3 h4 c hc d hd =>
    intro u ha
    rw [utf8Validate_four_two h1 h2 h3 h4 hc hd] at ha
    obtain rfl : 0 = u := by injection ha
    refine ⟨by simp [utf8Validate], by simpa using utf8Validate_four_two h1 h2 h3 h4 hc hd,
      ⟨4, by simp [utf8CharWidth, h1, h2, h3, h4], by simp⟩, by simp, by simp⟩
  | case14 b h1 h2 h3 h4 c hc d hd e l2 he ih =>
    intro u ha
    rw [utf8Validate_four_cons l2 h1 h2 h3 h4 hc hd he, VRes.shift_eq_soft] at ha
    obtain ⟨u2, ha2, rfl⟩ := ha
    obtain ⟨g1, g2, g3, g4, g5⟩ := ih u2 ha2
    have he4 : u2 + 4 = (((u2 + 1) + 1) + 1) + 1 := rfl
    refine ⟨?_, ?_, ?_, ?_, ?_⟩
    · rw [he4, List.take_succ_cons, List.take_succ_cons, List.take_succ_cons,
        List.take_succ_cons, utf8Validate_four_cons _ h1 h2 h3 h4 hc hd he, g1]
      rfl
    · rw [he4, List.drop_succ_cons, List.drop_succ_cons, List.drop_succ_cons,
        List.drop_succ_cons]
      exact g2
    · rw [he4, List.drop_succ_cons, List.drop_succ_cons, List.drop_succ_cons,
        List.drop_succ_cons]
      exact g3
    · simp only [List.length_cons]; omega
    · simp only [List.length_cons]; omega
  | case15 b h1 h2 h3 h4 c hc d hd e l2 he =>
    intro u ha
    rw [utf8Validate_four_bad4 l2 h1 h2 h3 h4 hc hd he] at ha
    exact absurd ha (by simp)
  | case16 b h1 h2 h3 h4 c hc d l2 hd =>
    intro u ha
    rw [utf8Validate_four_bad3 l2 h1 h2 h3 h4 hc hd] at ha
    exact absurd ha (by simp)
  | case17 b h1 h2 h3 h4 c l2 hc =>
    intro u ha
    rw [utf8Validate_four_bad2 l2 h1 h2 h3 h4 hc] at ha
    exact absurd ha (by simp)
  | case18 b l h1 h2 h3 h4 =>
    intro u ha
    rw [utf8Validate_bad_lead l h1 h2 h3 h4] at ha
    exact absurd ha (by simp)

/-- A true decoding error is not repaired by appending more bytes. -/
theorem utf8Validate_hard_append :
    ∀ (a : List Nat) (u : Nat), utf8Validate a = .hard u →
      ∀ bs, utf8Validate (a ++ bs) = .hard u := by
  intro a
  induction a using utf8Validate.induct with
  | case1 =>
    intro u ha
    exact absurd ha (by simp [utf8Validate])
  | case2 b l hb ih =>
    intro u ha bs
    rw [utf8Validate_ascii l hb, VRes.shift_eq_hard] at ha
    obtain ⟨u2, ha2, rfl⟩ := ha
    rw [List.cons_append, utf8Validate_ascii _ hb, ih u2 ha2 bs]
    rfl
  | case3 b h1 h2 =>
    intro u ha
    rw [utf8Validate_two_nil h1 h2] at ha
    exact absurd ha (by simp)
  | case4 b h1 h2 c l2 hc ih =>
    intro u ha bs
    rw [utf8Validate_two_cons l2 h1 h2 hc, VRes.shift_eq_hard] at ha
    obtain ⟨u2, ha2, rfl⟩ := ha
    rw [List.cons_append, List.cons_append, utf8Validate_two_cons _ h1 h2 hc,
      ih u2 ha2 bs]
    rfl
  | case5 b h1 h2 c l2 hc =>
    intro u ha bs
    rw [utf8Validate_two_bad l2 h1 h2 hc] at ha
    obtain rfl : 0 = u := by injection ha
    rw [List.cons_append, List.cons_append]
    exact utf8Validate_two_bad _ h1 h2 hc
  | case6 b h1 h2 h3 =>
    intro u ha
    rw [utf8Validate_three_nil h1 h2 h3] at ha
    exact absurd ha (by simp)
  | case7 b h1 h2 h3 c hc =>
    intro u ha
    rw [utf8Validate_three_one h1 h2 h3 hc] at ha
    exact absurd ha (by simp)
  | case8 b h1 h2 h3 c hc d l2 hd ih =>
    intro u ha bs
    rw [utf8Validate_three_cons l2 h1 h2 h3 hc hd, VRes.shift_eq_hard] at ha
    obtain ⟨u2, ha2, rfl⟩ := ha
    rw [List.cons_append, List.cons_append, List.cons_append,
      utf8Validate_three_cons _ h1 h2 h3 hc hd, ih u2 ha2 bs]
    rfl
  | case9 b h1 h2 h3 c hc d l2 hd =>
    intro u ha bs
    rw [utf8Validate_three_bad3 l2 h1 h2 h3 hc hd] at ha
    obtain rfl : 0 = u := by injection ha
    rw [List.cons_append, List.cons_append, List.cons_append]
    exact utf8Validate_three_bad3 _ h1 h2 h3 hc hd
  | case10 b h1 h2 h3 c l2 hc =>
    intro u ha bs
    rw [utf8Validate_three_bad2 l2 h1 h2 h3 hc] at ha
    obtain rfl : 0 = u := by injection ha
    rw [List.cons_append, List.cons_append]
    exact utf8Validate_three_bad2 _ h1 h2 h3 hc
  | case11 b h1 h2 h3 h4 =>
    intro u ha
    rw [utf8Validate_four_nil h1 h2 h3 h4] at ha
    exact absurd ha (by simp)
  | case12 b h1 h2 h3 h4 c hc =>
    intro u ha
    rw [utf8Validate_four_one h1 h2 h3 h4 hc] at ha
    exact absurd ha (by simp)
  | case13 b h1 h2 h3 h4 c hc d hd =>
    intro u ha
    rw [utf8Validate_four_two h1 h2 h3 h4 hc hd] at ha
    exact absurd ha (by simp)
  | case14 b h1 h2 h3 h4 c hc d hd e l2 he ih =>
    intro u ha bs
    rw [utf8Validate_four_cons l2 h1 h2 h3 h4 hc hd he, VRes.shift_eq_hard] at ha
    obtain ⟨u2, ha2, rfl⟩ := ha
    rw [List.cons_append, List.cons_append, List.cons_append, List.cons_append,
      utf8Validate_four_cons _ h1 h2 h3 h4 hc hd he, ih u2 ha2 bs]
    rfl
  | case15 b h1 h2 h3 h4 c hc d hd e l2 he =>
    intro u ha bs
    rw [utf8Validate_four_bad4 l2 h1 h2 h3 h4 hc hd he] at ha
    obtain rfl : 0 = u := by injection ha
    rw [List.cons_append, List.cons_append, List.cons_append, List.cons_append]
    exact utf8Validate_four_bad4 _ h1 h2 h3 h4 hc hd he
  | case16 b h1 h2 h3 h4 c hc d l2 hd =>
    intro u ha bs
    rw [utf8Validate_four_bad3 l2 h1 h2 h3 h4 hc hd] at ha
    obtain rfl : 0 = u := by injection ha
    rw [List.cons_append, List.cons_append, List.cons_append]
    exact utf8Validate_four_bad3 _ h1 h2 h3 h4 hc hd
  | case17 b h1 h2 h3 h4 c l2 hc =>
    intro u ha bs
    rw [utf8Validate_four_bad2 l2 h1 h2 h3 h4 hc] at ha
    obtain rfl : 0 = u := by injection ha
    rw [List.cons_append, List.cons_append]
    exact utf8Validate_four_bad2 _ h1 h2 h3 h4 hc
  | case18 b l h1 h2 h3 h4 =>
    intro u ha bs
    rw [utf8Validate_bad_lead l h1 h2 h3 h4] at ha
    obtain rfl : 0 = u := by injection ha
    rw [List.cons_append]
    exact utf8Validate_bad_lead _ h1 h2 h3 h4

/-- A buffer strictly shorter than its lead byte's sequence width
validates to `soft 0` or `hard 0` — never fully valid. -/
theorem utf8Validate_short {b w : Nat} {t : List Nat}
    (hw : utf8CharWidth b = some w) (hlen : (b :: t).length < w) :
    utf8Validate (b :: t) = .soft 0 ∨ utf8Validate (b :: t) = .hard 0 := by
  simp only [utf8CharWidth] at hw
  simp only [List.length_cons] at hlen
  split_ifs at hw with h1 h2 h3 h4
  · injection hw with hw2; omega
  · injection hw with hw2
    subst hw2
    obtain rfl : t = [] := by
      cases t with
      | nil => rfl
      | cons x xs => simp only [List.length_cons] at hlen; omega
    exact Or.inl (utf8Validate_two_nil h1 h2)
  · injection hw with hw2
    subst hw2
    cases t with
    | nil => exact Or.inl (utf8Validate_three_nil h1 h2 h3)
    | cons c t2 =>
      obtain rfl : t2 = [] := by
        cases t2 with
        | nil => rfl
        | cons x xs => simp only [List.length_cons] at hlen; omega
      by_cases hc : snd3Ok b c = true
      · exact Or.inl (utf8Validate_three_one h1 h2 h3 hc)
      · exact Or.inr (utf8Validate_three_bad2 _ h1 h2 h3 hc)
  · injection hw with hw2
    subst hw2
    cases t with
    | nil => exact Or.inl (utf8Validate_four_nil h1 h2 h3 h4)
    | cons c t2 =>
      by_cases hc : snd4Ok b c = true
      · cases t2 with
        | nil => exact Or.inl (utf8Validate_four_one h1 h2 h3 h4 hc)
        | cons d t3 =>
          obtain rfl : t3 = [] := by
            cases t3 with
            | nil => rfl
            | cons x xs => simp only [List.length_cons] at hlen; omega
          by_cases hd : contOk d = true
          · exact Or.inl (utf8Validate_four_two h1 h2 h3 h4 hc hd)
          · exact Or.inr (utf8Validate_four_bad3 _ h1 h2 h3 h4 hc hd)
      · exact Or.inr (utf8Validate_four_bad2 _ h1 h2 h3 h4 hc)

/-- A buffer of exactly its lead byte's sequence width validates to `ok`
or `hard 0` — never `soft`. -/
theorem utf8Validate_exact {b w : Nat} {t : List Nat}
    (hw : utf8CharWidth b = some w) (hlen : (b :: t).length = w) :
    utf8Validate (b :: t) = .ok ∨ utf8Validate (b :: t) = .hard 0 := by
  simp only [utf8CharWidth] at hw
  simp only [List.length_cons] at hlen
  split_ifs at hw with h1 h2 h3 h4
  · injection hw with hw2
    subst hw2
    obtain rfl : t = [] := by
      cases t with
      | nil => rfl
      | cons x xs => simp only [List.length_cons] at hlen; omega
    left
    rw [utf8Validate_ascii [] h1]
    rfl
  · injection hw with hw2
    subst hw2
    obtain ⟨c, rfl⟩ : ∃ c, t = [c] := by
      cases t with
      | nil => simp only [List.length_nil] at hlen; omega
      | cons x xs =>
        cases xs with
        | nil => exact ⟨x, rfl⟩
        | cons y ys => simp only [List.length_cons] at hlen; omega
    by_cases hc : contOk c = true
    · left
      rw [utf8Validate_two_cons _ h1 h2 hc]
      rfl
    · exact Or.inr (utf8Validate_two_bad _ h1 h2 hc)
  · injection hw with hw2
    subst hw2
    obtain ⟨c, d, rfl⟩ : ∃ c d, t = [c, d] := by
      cases t with
      | nil => simp only [List.length_nil] at hlen; omega
      | cons x xs =>
        cases xs with
        | nil => simp only [List.length_nil, List.length_cons] at hlen; omega
        | cons y ys =>
          cases ys with
          | nil => exact ⟨x, y, rfl⟩
          | cons z zs => simp only [List.length_cons] at hlen; omega
    by_cases hc : snd3Ok b c = true
    · by_cases hd : contOk d = true
      · left
        rw [utf8Validate_three_cons _ h1 h2 h3 hc hd]
        rfl
      · exact Or.inr (utf8Validate_three_bad3 _ h1 h2 h3 hc hd)
    · exact Or.inr (utf8Validate_three_bad2 _ h1 h2 h3 hc)
  · injection hw with hw2
    subst hw2
    obtain ⟨c, d, e, rfl⟩ : ∃ c d e, t = [c, d, e] := by
      cases t with
      | nil => simp only [List.length_nil] at hlen; omega
      | cons x xs =>
        cases xs with
        | nil => simp only [List.length_nil, List.length_cons] at hlen; omega
        | cons y ys =>
          cases ys with
          | nil => simp only [List.length_nil, List.length_cons] at hlen; omega
          | cons z zs =>
            cases zs with
            | nil => exact ⟨x, y, z, rfl⟩
            | cons q qs => simp only [List.length_cons] at hlen; omega
    by_cases hc : snd4Ok b c = true
    · by_cases hd : contOk d = true
      · by_cases he : contOk e = true
        · left
          rw [utf8Validate_four_cons _ h1 h2 h3 h4 hc hd he]
          rfl
        · exact Or.inr (utf8Validate_four_bad4 _ h1 h2 h3 h4 hc hd he)
      · exact Or.inr (utf8Validate_four_bad3 _ h1 h2 h3 h4 hc hd)
    · exact Or.inr (utf8Validate_four_bad2 _ h1 h2 h3 h4 hc)

/-- Behaviour of one `ReadToString::poll` iteration on a chunk, for any
well-shaped held surrogate, classified by the validation of the held
bytes followed by the chunk. -/
theorem rtsStep_spec (str s c : List Nat) (hs : SurrShape s) :
    (utf8Validate (s ++ c) = .ok →
        rtsStep ⟨str, s⟩ c = .ok ⟨str ++ (s ++ c), []⟩)
  ∧ (∀ u, utf8Validate (s ++ c) = .soft u →
        rtsStep ⟨str, s⟩ c = .ok ⟨str ++ (s ++ c).take u, (s ++ c).drop u⟩
        ∧ SurrShape ((s ++ c).drop u))
  ∧ (∀ u, utf8Validate (s ++ c) = .hard u →
        rtsStep ⟨str, s⟩ c = .error .utf8Error
        ∨ (rtsStep ⟨str, s⟩ c = .ok ⟨str, s ++ c⟩ ∧ SurrShape (s ++ c)
            ∧ s ++ c ≠ [])) := by
  cases s with
  | nil =>
    have hstep : rtsStep ⟨str, []⟩ c = pushData ⟨str, []⟩ c := rfl
    refine ⟨?_, ?_, ?_⟩
    · intro hok
      simp only [List.nil_append] at hok ⊢
      rw [hstep]
      simp [pushData, hok]
    · intro u hsoft
      simp only [List.nil_append] at hsoft ⊢
      obtain ⟨g1, g2, g3, g4, g5⟩ := utf8Validate_soft_spec c u hsoft
      have hguard : ¬ 3 < (c.drop u).length := by
        simp only [List.length_drop]; omega
      constructor
      · rw [hstep]
        simp [pushData, hsoft, hguard]
        omega
      · exact g3
    · intro u hhard
      left
      simp only [List.nil_append] at hhard
      rw [hstep]
      simp [pushData, hhard]
  | cons b t =>
    obtain ⟨w, hw, hlen⟩ := hs
    have hwb := utf8CharWidth_bounds hw
    have hlen2 : t.length + 1 < w := by simpa using hlen
    have hguard1 : ¬ 4 ≤ (b :: t).length := by
      simp only [List.length_cons] at hlen ⊢
      omega
    have hguard2 : ¬ w < (b :: t).length := by omega
    by_cases hneed : c.length < w - (b :: t).length
    · -- not enough bytes to complete the sequence: extend the surrogate
      have e1 : ¬ 3 ≤ t.length := by omega
      have e2 : ¬ w < t.length + 1 := by omega
      have e3 : c.length < w - (t.length + 1) := by simpa using hneed
      have hstep : rtsStep ⟨str, b :: t⟩ c = .ok ⟨str, (b :: t) ++ c⟩ := by
        simp [rtsStep, hw, e1, e2, e3]
      have hshort : ((b :: t) ++ c).length < w := by
        simp only [List.length_append, List.length_cons] at hlen hneed ⊢
        omega
      have hshape : SurrShape ((b :: t) ++ c) := by
        refine ⟨w, hw, ?_⟩
        simpa using hshort
      have hW := utf8Validate_short (t := t ++ c) hw
        (by simpa using hshort)
      rw [← List.cons_append] at hW
      refine ⟨?_, ?_, ?_⟩
      · intro hok
        rcases hW with h | h <;> rw [h] at hok <;> exact absurd hok (by simp)
      · intro u hsoft
        have hu0 : u = 0 := by
          rcases hW with h | h
          · rw [h] at hsoft
            injection hsoft with h2
            omega
          · rw [h] at hsoft
            exact absurd hsoft (by simp)
        subst hu0
        refine ⟨?_, by simpa using hshape⟩
        rw [hstep]
        simp
      · intro u hhard
        right
        exact ⟨hstep, hshape, by simp⟩
    · -- the chunk completes the sequence
      have e1 : ¬ 3 ≤ t.length := by omega
      have e2 : ¬ w < t.length + 1 := by omega
      have e3 : ¬ c.length < w - (t.length + 1) := by
        simp only [List.length_cons] at hneed
        omega
      have htake : b :: (t ++ List.take (w - (t.length + 1)) c)
          = (b :: (t ++ c)).take w := by
        cases w with
        | zero => exact absurd hlen2 (by omega)
        | succ w2 =>
          rw [List.take_succ_cons, List.take_append_eq_append_take,
            List.take_of_length_le (show t.length ≤ w2 by omega)]
          have harith : w2 - t.length = w2 + 1 - (t.length + 1) := by omega
          rw [harith]
      have hdrop : List.drop (w - (t.length + 1)) c = (b :: (t ++ c)).drop w := by
        cases w with
        | zero => exact absurd hlen2 (by omega)
        | succ w2 =>
          rw [List.drop_succ_cons, List.drop_append_eq_append_drop,
            List.drop_eq_nil_of_le (show t.length ≤ w2 by omega),
            List.nil_append]
          have harith : w2 - t.length = w2 + 1 - (t.length + 1) := by omega
          rw [harith]
      have hsurr_len : (b :: (t ++ List.take (w - (t.length + 1)) c)).length
          = w := by
        simp only [List.length_cons, List.length_append, List.length_take]
        omega
      have hPlen : w ≤ (b :: (t ++ c)).length := by
        simp only [List.length_cons, List.length_append]
        omega
      have hvs := utf8Validate_exact
        (t := t ++ List.take (w - (t.length + 1)) c) hw hsurr_len
      rw [htake] at hvs
      rcases hvs with hvs | hvs
      · -- the completed sequence is valid: decode it, then the remainder
        have hstep : rtsStep ⟨str, b :: t⟩ c
            = pushData ⟨str ++ (b :: (t ++ c)).take w, []⟩
                ((b :: (t ++ c)).drop w) := by
          simp [rtsStep, hw, e1, e2, e3]
          rw [htake, hdrop]
          simp [hvs]
        have hrel : utf8Validate (b :: (t ++ c))
            = (utf8Validate ((b :: (t ++ c)).drop w)).shift w := by
          have h2 := utf8Validate_append_ok _ hvs ((b :: (t ++ c)).drop w)
          rw [List.take_append_drop] at h2
          rw [h2, List.length_take]
          congr 1
          omega
        refine ⟨?_, ?_, ?_⟩
        · intro hok
          rw [List.cons_append] at hok ⊢
          rw [hrel, VRes.shift_eq_ok] at hok
          rw [hstep]
          simp [pushData, hok, List.append_assoc, List.take_append_drop]
        · intro u hsoft
          rw [List.cons_append] at hsoft
          rw [hrel, VRes.shift_eq_soft] at hsoft
          obtain ⟨u2, hv2, rfl⟩ := hsoft
          obtain ⟨g1, g2, g3, g4, g5⟩ := utf8Validate_soft_spec _ u2 hv2
          have hguard : ¬ 3 < (((b :: (t ++ c)).drop w).drop u2).length := by
            simp only [List.length_drop] at g4 g5 ⊢
            omega
          have htk : (b :: (t ++ c)).take (u2 + w)
              = (b :: (t ++ c)).take w ++ ((b :: (t ++ c)).drop w).take u2 := by
            rw [Nat.add_comm, List.take_add]
          have hdr : (b :: (t ++ c)).drop (u2 + w)
              = ((b :: (t ++ c)).drop w).drop u2 := by
            rw [List.drop_drop, Nat.add_comm]
          refine ⟨?_, ?_⟩
          · rw [List.cons_append, hstep]
            simp only [pushData, hv2, hguard, if_neg hguard]
            simp [htk, hdr, List.append_assoc]
          · rw [List.cons_append, hdr]
            exact g3
        · intro u hhard
          rw [List.cons_append] at hhard
          rw [hrel, VRes.shift_eq_hard] at hhard
          obtain ⟨u2, hv2, rfl⟩ := hhard
          left
          rw [hstep]
          simp [pushData, hv2]
      · -- the completed sequence is invalid: a true decoding error
        have hstep : rtsStep ⟨str, b :: t⟩ c = .error .utf8Error := by
          simp [rtsStep, hw, e1, e2, e3]
          rw [htake]
          simp [hvs]
        have hPhard : utf8Validate (b :: (t ++ c)) = .hard 0 := by
          have h2 := utf8Validate_hard_append _ 0 hvs ((b :: (t ++ c)).drop w)
          rw [List.take_append_drop] at h2
          exact h2
        refine ⟨?_, ?_, ?_⟩
        · intro hok
          rw [List.cons_append, hPhard] at hok
          exact absurd hok (by simp)
        · intro u hsoft
          rw [List.cons_append, hPhard] at hsoft
          exact absurd hsoft (by simp)
        · intro u _
          left
          exact hstep

/-- Behaviour of the whole `ReadToString::poll` loop over a chunk list,
classified by the validation of the held bytes followed by all remaining
chunk data. -/
theorem rtsRun_spec :
    ∀ (chunks : List (List Nat)) (str s : List Nat), SurrShape s →
    (utf8Validate (s ++ chunks.flatten) = .ok →
        rtsRun ⟨str, s⟩ chunks = .ok ⟨str ++ (s ++ chunks.flatten), []⟩)
  ∧ (∀ u, utf8Validate (s ++ chunks.flatten) = .soft u →
        rtsRun ⟨str, s⟩ chunks
            = .ok ⟨str ++ (s ++ chunks.flatten).take u,
                (s ++ chunks.flatten).drop u⟩
        ∧ SurrShape ((s ++ chunks.flatten).drop u))
  ∧ (∀ u, utf8Validate (s ++ chunks.flatten) = .hard u →
        rtsRun ⟨str, s⟩ chunks = .error .utf8Error
        ∨ ∃ str2 s2, rtsRun ⟨str, s⟩ chunks = .ok ⟨str2, s2⟩
            ∧ str2 ++ s2 = str ++ (s ++ chunks.flatten)
            ∧ SurrShape s2 ∧ s2 ≠ []) := by
  intro chunks
  induction chunks with
  | nil =>
    intro str s hs
    simp only [List.flatten_nil, List.append_nil]
    refine ⟨?_, ?_, ?_⟩
    · intro hok
      cases s with
      | nil => simp [rtsRun]
      | cons b t =>
        obtain ⟨w, hw, hlen⟩ := hs
        rcases utf8Validate_short hw hlen with h | h <;> rw [h] at hok <;>
          exact absurd hok (by simp)
    · intro u hsoft
      cases s with
      | nil => exact absurd hsoft (by simp [utf8Validate])
      | cons b t =>
        obtain ⟨w, hw, hlen⟩ := hs
        have hu0 : u = 0 := by
          rcases utf8Validate_short hw hlen with h | h
          · rw [h] at hsoft
            injection hsoft with h2
            omega
          · rw [h] at hsoft
            exact absurd hsoft (by simp)
        subst hu0
        refine ⟨by simp [rtsRun], ?_⟩
        simp only [List.drop_zero]
        exact ⟨w, hw, hlen⟩
    · intro u hhard
      right
      refine ⟨str, s, by simp [rtsRun], rfl, hs, ?_⟩
      intro hnil
      rw [hnil] at hhard
      exact absurd hhard (by simp [utf8Validate])
  | cons c cs ih =>
    intro str s hs
    have hstep := rtsStep_spec str s c hs
    have hP : s ++ (c :: cs).flatten = (s ++ c) ++ cs.flatten := by
      rw [List.flatten_cons, List.append_assoc]
    rcases hW : utf8Validate (s ++ c) with _ | u0 | u0
    · -- the held bytes plus this chunk are fully valid
      have hst := hstep.1 hW
      have hrun : rtsRun ⟨str, s⟩ (c :: cs)
          = rtsRun ⟨str ++ (s ++ c), []⟩ cs := by
        simp [rtsRun, hst]
      have hrel : utf8Validate (s ++ (c :: cs).flatten)
          = (utf8Validate cs.flatten).shift (s ++ c).length := by
        rw [hP]
        exact utf8Validate_append_ok _ hW _
      have ih2 := ih (str ++ (s ++ c)) [] trivial
      simp only [List.nil_append] at ih2
      refine ⟨?_, ?_, ?_⟩
      · intro hok
        rw [hrel, VRes.shift_eq_ok] at hok
        rw [hrun, ih2.1 hok]
        rw [hP, List.append_assoc]
      · intro u hsoft
        rw [hrel, VRes.shift_eq_soft] at hsoft
        obtain ⟨u2, hv2, rfl⟩ := hsoft
        obtain ⟨r1, r2⟩ := ih2.2.1 u2 hv2
        have htk : (s ++ (c :: cs).flatten).take (u2 + (s ++ c).length)
            = (s ++ c) ++ cs.flatten.take u2 := by
          rw [hP, Nat.add_comm, List.take_add, List.take_left, List.drop_left]
        have hdr : (s ++ (c :: cs).flatten).drop (u2 + (s ++ c).length)
            = cs.flatten.drop u2 := by
          rw [hP, Nat.add_comm, ← List.drop_drop, List.drop_left]
        refine ⟨?_, ?_⟩
        · rw [hrun, r1, htk, List.append_assoc, hdr]
        · rw [hdr]
          exact r2
      · intro u hhard
        rw [hrel, VRes.shift_eq_hard] at hhard
        obtain ⟨u2, hv2, rfl⟩ := hhard
        rcases ih2.2.2 u2 hv2 with h | ⟨str2, s2, hr, hcat, hsh2, hne2⟩
        · left
          rw [hrun]
          exact h
        · right
          refine ⟨str2, s2, by rw [hrun]; exact hr, ?_, hsh2, hne2⟩
          rw [hcat, hP, List.append_assoc]
    · -- an incomplete sequence remains: the valid part is consumed
      obtain ⟨hst, hsh⟩ := hstep.2.1 u0 hW
      obtain ⟨g1, g2, g3, g4, g5⟩ := utf8Validate_soft_spec _ u0 hW
      have hrun : rtsRun ⟨str, s⟩ (c :: cs)
          = rtsRun ⟨str ++ (s ++ c).take u0, (s ++ c).drop u0⟩ cs := by
        simp [rtsRun, hst]
      have hlentake : ((s ++ c).take u0).length = u0 := by
        rw [List.length_take]
        omega
      have hdecomp : s ++ (c :: cs).flatten
          = (s ++ c).take u0 ++ ((s ++ c).drop u0 ++ cs.flatten) := by
        rw [hP, ← List.append_assoc, List.take_append_drop]
      have hrel : utf8Validate (s ++ (c :: cs).flatten)
          = (utf8Validate ((s ++ c).drop u0 ++ cs.flatten)).shift u0 := by
        rw [hdecomp, utf8Validate_append_ok _ g1 _, hlentake]
      have ih2 := ih (str ++ (s ++ c).take u0) ((s ++ c).drop u0) hsh
      refine ⟨?_, ?_, ?_⟩
      · intro hok
        rw [hrel, VRes.shift_eq_ok] at hok
        rw [hrun, ih2.1 hok, hdecomp, List.append_assoc]
      · intro u hsoft
        rw [hrel, VRes.shift_eq_soft] at hsoft
        obtain ⟨u2, hv2, rfl⟩ := hsoft
        obtain ⟨r1, r2⟩ := ih2.2.1 u2 hv2
        have htk : (s ++ (c :: cs).flatten).take (u2 + u0)
            = (s ++ c).take u0 ++ ((s ++ c).drop u0 ++ cs.flatten).take u2 := by
          rw [hdecomp, Nat.add_comm, List.take_add, List.take_left' hlentake,
            List.drop_left' hlentake]
        have hdr : (s ++ (c :: cs).flatten).drop (u2 + u0)
            = ((s ++ c).drop u0 ++ cs.flatten).drop u2 := by
          rw [hdecomp, Nat.add_comm, ← List.drop_drop,
            List.drop_left' hlentake]
        refine ⟨?_, ?_⟩
        · rw [hrun, r1, htk, List.append_assoc, hdr]
        · rw [hdr]
          exact r2
      · intro u hhard
        rw [hrel, VRes.shift_eq_hard] at hhard
        obtain ⟨u2, hv2, rfl⟩ := hhard
        rcases ih2.2.2 u2 hv2 with h | ⟨str2, s2, hr, hcat, hsh2, hne2⟩
        · left
          rw [hrun]
          exact h
        · right
          refine ⟨str2, s2, by rw [hrun]; exact hr, ?_, hsh2, hne2⟩
          rw [hcat, hdecomp, List.append_assoc]
    · -- a true decoding error inside the held bytes plus this chunk
      have hPhard : utf8Validate (s ++ (c :: cs).flatten) = .hard u0 := by
        rw [hP]
        exact utf8Validate_hard_append _ u0 hW _
      rcases hstep.2.2 u0 hW with hst | ⟨hst, hsh, hne⟩
      · have hrun : rtsRun ⟨str, s⟩ (c :: cs) = .error .utf8Error := by
          simp [rtsRun, hst]
        refine ⟨?_, ?_, ?_⟩
        · intro hok
          rw [hPhard] at hok
          exact absurd hok (by simp)
        · intro u hsoft
          rw [hPhard] at hsoft
          exact absurd hsoft (by simp)
        · intro u _
          left
          exact hrun
      · have hrun : rtsRun ⟨str, s⟩ (c :: cs) = rtsRun ⟨str, s ++ c⟩ cs := by
          simp [rtsRun, hst]
        have ih2 := ih str (s ++ c) hsh
        refine ⟨?_, ?_, ?_⟩
        · intro hok
          rw [hP] at hok
          rw [hrun, ih2.1 hok, hP]
        · intro u hsoft
          rw [hP] at hsoft
          obtain ⟨r1, r2⟩ := ih2.2.1 u hsoft
          refine ⟨?_, ?_⟩
          · rw [hrun, r1, hP]
          · rw [hP]
            exact r2
        · intro u hhard
          rw [hP] at hhard
          rcases ih2.2.2 u hhard with h | ⟨str2, s2, hr, hcat, hsh2, hne2⟩
          · left
            rw [hrun]
            exact h
          · right
            refine ⟨str2, s2, by rw [hrun]; exact hr, ?_, hsh2, hne2⟩
            rw [hcat, hP]

/-- C7 counterexample:  on the chunks `[F0]`, `[00]` the future retains
the surrogate `[F0, 00]` across the chunk edge, yet `[F0, 00]` is a true
decoding error (`hard 0`), not a valid-but-incomplete UTF-8 prefix:  the
cross-chunk extension path copies bytes into `start` without
range-checking them.  The stream then ends with the "incomplete UTF-8
surrogate" error rather than a `Utf8` error. -/
theorem c7_invalid_surrogate_retained_counterexample :
    rtsRun ⟨[], []⟩ [[240], [0]] = .ok ⟨[], [240, 0]⟩
    ∧ utf8Validate [240, 0] = .hard 0
    ∧ readToString [[240], [0]] = .error (.incomplete [240, 0]) :=
  ⟨rfl, by decide, rfl⟩

/-- C7 (amended): for any chunking of a field's bytes, `read_to_string`
retains at most three trailing bytes starting with a multi-byte lead and
shorter than that lead's sequence width (they need not be valid UTF-8:
the cross-chunk extension path retains continuation bytes unchecked),
the retained bytes plus the accumulated string always equal the bytes
consumed so far, the exact decoded string is returned precisely when the
concatenated bytes are valid UTF-8, and otherwise the future fails, with
a `Utf8` decoding error or — when the stream ends while bytes are
retained — an incomplete-surrogate error. -/
theorem c7_read_to_string_utf8_stitching (chunks : List (List Nat)) :
    (∀ str2 s2, rtsRun ⟨[], []⟩ chunks = .ok ⟨str2, s2⟩ →
        str2 ++ s2 = chunks.flatten ∧ s2.length ≤ 3 ∧ SurrShape s2)
    ∧ (utf8Validate chunks.flatten = .ok ↔
        readToString chunks = .ok chunks.flatten)
    ∧ (utf8Validate chunks.flatten ≠ .ok →
        readToString chunks = .error .utf8Error
        ∨ ∃ s2, readToString chunks = .error (.incomplete s2)) := by
  have hspec := rtsRun_spec chunks [] [] trivial
  simp only [List.nil_append] at hspec
  refine ⟨?_, ?_, ?_⟩
  · intro str2 s2 hr
    rcases hV : utf8Validate chunks.flatten with _ | u | u
    · rw [hspec.1 hV] at hr
      simp only [Except.ok.injEq, RTSState.mk.injEq] at hr
      obtain ⟨h1, h2⟩ := hr
      subst h1
      subst h2
      exact ⟨by simp, by simp, trivial⟩
    · obtain ⟨r1, r2⟩ := hspec.2.1 u hV
      obtain ⟨g1, g2, g3, g4, g5⟩ := utf8Validate_soft_spec _ u hV
      rw [r1] at hr
      simp only [Except.ok.injEq, RTSState.mk.injEq] at hr
      obtain ⟨h1, h2⟩ := hr
      subst h1
      subst h2
      refine ⟨List.take_append_drop u chunks.flatten, ?_, r2⟩
      simp only [List.length_drop]
      omega
    · rcases hspec.2.2 u hV with h | ⟨str3, s3, hr2, hcat, hsh, hne⟩
      · rw [h] at hr
        exact absurd hr (by simp)
      · rw [hr2] at hr
        simp only [Except.ok.injEq, RTSState.mk.injEq] at hr
        obtain ⟨h1, h2⟩ := hr
        subst h1
        subst h2
        exact ⟨hcat, SurrShape_length_le hsh, hsh⟩
  · constructor
    · intro hok
      have h := hspec.1 hok
      simp [readToString, h]
    · intro hrts
      rcases hV : utf8Validate chunks.flatten with _ | u | u
      · rfl
      · obtain ⟨r1, r2⟩ := hspec.2.1 u hV
        obtain ⟨g1, g2, g3, g4, g5⟩ := utf8Validate_soft_spec _ u hV
        have hdropne : chunks.flatten.drop u ≠ [] := by
          intro h0
          rw [h0] at g2
          exact absurd g2 (by simp [utf8Validate])
        simp [readToString, r1, hdropne] at hrts
      · rcases hspec.2.2 u hV with h | ⟨str3, s3, hr2, hcat, hsh, hne⟩
        · simp [readToString, h] at hrts
        · simp [readToString, hr2, hne] at hrts
  · intro hnok
    rcases hV : utf8Validate chunks.flatten with _ | u | u
    · exact absurd hV hnok
    · obtain ⟨r1, r2⟩ := hspec.2.1 u hV
      obtain ⟨g1, g2, g3, g4, g5⟩ := utf8Validate_soft_spec _ u hV
      have hdropne : chunks.flatten.drop u ≠ [] := by
        intro h0
        rw [h0] at g2
        exact absurd g2 (by simp [utf8Validate])
      right
      exact ⟨chunks.flatten.drop u, by simp [readToString, r1, hdropne]⟩
    · rcases hspec.2.2 u hV with h | ⟨str3, s3, hr2, hcat, hsh, hne⟩
      · left
        simp [readToString, h]
      · right
        exact ⟨s3, by simp [readToString, hr2, hne]⟩

/-- C7 witness:  the three-byte character `U+2567` split `[E2 95] ++
[AF]` across two chunks is stitched back together and decoded. -/
theorem c7_read_to_string_utf8_stitching_witness :
    readToString [[226, 149], [175]] = .ok [226, 149, 175] := by
  have h := (c7_read_to_string_utf8_stitching [[226, 149], [175]]).2.1
  exact h.mp (by decide)

end MultipartAsync
